import Mathlib

/-!
Verification development for the kitsune support-site repository.

Part 1 embeds the customer-care Twitter views from
src/apps/customercare/views.py (`_get_tweets`, `more_tweets`,
`twitter_post`) as pure Lean functions.

Part 2 models the wiki Document/Revision review-and-translation workflow.
The wiki model code itself (wiki/models.py, wiki/views.py) is not part of
the visible sources — only its test suites are — so those definitions are
modelled from the specification and pinned down by the behaviours the test
suites exercise.
-/

namespace Kitsune

/-! ## Part 1: customercare views (src/apps/customercare/views.py) -/

/-- One stored `Tweet` row, as read by `_get_tweets`: the locale column,
the numeric status id, and the fields of the decoded `raw_json` payload
that the view uses. -/
structure StoredTweet where
  locale : String
  tweet_id : Int
  profile_image_url : String
  from_user : String
  text : String
  created_at : String
deriving Repr, DecidableEq

/-- One item of the list `_get_tweets` returns.  The datetime parsing of
`created_at` (rfc2822 → datetime) is kept as the raw string; no claim
depends on it. -/
structure TweetView where
  profile_img : String
  user : String
  text : String
  id : Int
  date : String
deriving Repr, DecidableEq

def MAX_TWEETS : Nat := 20

/-- `_get_tweets(limit, max_id)` from src/apps/customercare/views.py.
`clean` stands for the external `bleach.clean` sanitizer, `tweets` for the
`Tweet.objects` table in its query order.  `limit = 0` models the falsy
`if limit:` branch; `max_id = none` models an absent/falsy `max_id`. -/
def get_tweets (clean : String → String) (tweets : List StoredTweet)
    (limit : Nat) (max_id : Option Int) : List TweetView :=
  let q := tweets.filter (fun t => t.locale == "en")
  let q : List StoredTweet := match max_id with
    | some m => q.filter (fun t => t.tweet_id < m)
    | none => q
  let q := if limit != 0 then q.take limit else q
  q.map (fun t =>
    { profile_img := clean t.profile_image_url
      user := clean t.from_user
      text := clean t.text
      id := t.tweet_id
      date := t.created_at })

/-- `more_tweets(request)` from src/apps/customercare/views.py: renders
`_get_tweets(max_id=request.GET.get('max_id'))` with the default limit. -/
def more_tweets (clean : String → String) (tweets : List StoredTweet)
    (max_id : Option Int) : List TweetView :=
  get_tweets clean tweets MAX_TWEETS max_id

/-- The two response shapes `twitter_post` can produce. -/
inductive HttpResponse where
  | ok (body : String)
  | bad_request (body : String)
deriving Repr, DecidableEq

def HttpResponse.isBadRequest : HttpResponse → Bool
  | .ok _ => false
  | .bad_request _ => true

/-- `twitter_post(request)` from src/apps/customercare/views.py.
`reply_to = none` models `int(request.POST.get('reply_to', ''))` raising
`ValueError`; `api_result` is the outcome `request.twitter.api.update_status`
would produce (`.error e` models a caught `tweepy.TweepError`). -/
def twitter_post (reply_to : Option Int) (content : String)
    (api_result : Except String Unit) : HttpResponse :=
  match reply_to with
  | none => .bad_request "Reply-to is empty"
  | some _ =>
    if content.length == 0 then .bad_request "Message is empty"
    else if content.length > 140 then .bad_request "Message is too long"
    else
      match api_result with
      | .error e => .bad_request ("An error occured: " ++ e)
      | .ok _ => .ok ""

/-! ## Part 2: the wiki Document/Revision workflow

Modelled from the spec: wiki/models.py and wiki/views.py are not among the
visible sources (only apps/wiki/tests/ is), so the Document and Revision
models, the redirect generator, the based_on validation and the review
view are reconstructed here from spec.md sections 3 and 4.1 and from the
behaviours asserted by apps/wiki/tests/test_models.py and
apps/wiki/tests/test_templates.py. -/

/-- Modelled from the spec: the wiki `Document` model row
(wiki/models.py is not under src/).  `current_revision`, `parent` and a
Revision's `based_on` are ids into the state below; `saved`, `old_slug`
and `old_title` model Django persistence plus the remembering
slug/title setters the tests pin down. -/
structure Document where
  id : Nat
  locale : String
  slug : String
  title : String
  parent : Option Nat
  is_localizable : Bool
  html : String
  current_revision : Option Nat
  saved : Bool
  old_slug : Option String
  old_title : Option String
deriving Repr, DecidableEq

/-- Modelled from the spec: the wiki `Revision` model row
(wiki/models.py is not under src/). -/
structure Revision where
  id : Nat
  document : Nat
  content : String
  based_on : Option Nat
  is_approved : Bool
  reviewed : Bool
  significance : Nat
deriving Repr, DecidableEq

/-- Modelled from the spec: the persistent store the wiki views mutate —
the document and revision tables, the queue of enqueued
reviewed-notification tasks (by revision id), and an id allocator. -/
structure WikiState where
  docs : List Document
  revs : List Revision
  reviewed_notifications : List Nat
  next_id : Nat
deriving Repr, DecidableEq

def initState : WikiState := ⟨[], [], [], 0⟩

def findDoc (s : WikiState) (i : Nat) : Option Document :=
  s.docs.find? (fun d => d.id == i)

def findRev (s : WikiState) (i : Nat) : Option Revision :=
  s.revs.find? (fun r => r.id == i)

def replaceDoc (docs : List Document) (d : Document) : List Document :=
  docs.map (fun x => if x.id == d.id then d else x)

def replaceRev (revs : List Revision) (r : Revision) : List Revision :=
  revs.map (fun x => if x.id == r.id then r else x)

/-- Modelled from the spec: `wiki.parser.wiki_to_html` (not under src/).
Only the property the tests rely on — the rendered html embeds the raw
content — is modelled. -/
def wiki_to_html (content : String) : String :=
  "<div id=doc-content>" ++ content ++ "</div>"

/-- Modelled from the spec: the `REDIRECT_TITLE` template
`'%(old)s Redirect %(number)i'` of wiki/models.py. -/
def REDIRECT_TITLE (old : String) (number : Nat) : String :=
  old ++ " Redirect " ++ toString number

/-- Modelled from the spec: the `REDIRECT_SLUG` template of
wiki/models.py. -/
def REDIRECT_SLUG (old : String) (number : Nat) : String :=
  old ++ "-redirect-" ++ toString number

/-- Modelled from the spec: `REDIRECT_CONTENT % new_title`, the redirect
notice pointing at the renamed document's new title. -/
def REDIRECT_CONTENT (title : String) : String :=
  "REDIRECT [[" ++ title ++ "]]"

def titleTaken (docs : List Document) (locale t : String) : Bool :=
  docs.any (fun d => d.locale == locale && d.title == t)

def slugTaken (docs : List Document) (locale sl : String) : Bool :=
  docs.any (fun d => d.locale == locale && d.slug == sl)

/-- Modelled from the spec: the collision-avoidance loop of the redirect
generator — try `mk 1`, `mk 2`, … until the generated name is free.  The
loop of wiki/models.py is unbounded; here it carries fuel, instantiated
with more candidates than there are documents. -/
def uniqueAttrGo (taken : String → Bool) (mk : Nat → String) :
    Nat → Nat → String
  | 0, n => mk n
  | fuel+1, n => if taken (mk n) then uniqueAttrGo taken mk fuel (n+1) else mk n

/-- Modelled from the spec: the title given to the redirect document left
behind by a rename.  If the rename changed the title, the old title is
free and is reused; otherwise a fresh `'<title> Redirect <n>'` is
generated, dodging existing titles in the locale. -/
def attrForRedirectTitle (docs : List Document) (d : Document) : String :=
  match d.old_title with
  | some t => t
  | none => uniqueAttrGo (fun v => titleTaken docs d.locale v)
      (fun n => REDIRECT_TITLE d.title n) (docs.length + 1) 1

/-- Modelled from the spec: the slug given to the redirect document,
symmetric to `attrForRedirectTitle`. -/
def attrForRedirectSlug (docs : List Document) (d : Document) : String :=
  match d.old_slug with
  | some sl => sl
  | none => uniqueAttrGo (fun v => slugTaken docs d.locale v)
      (fun n => REDIRECT_SLUG d.slug n) (docs.length + 1) 1

/-- Modelled from the spec: after a rename is committed, materialize the
single redirect document at the old identifier, with one approved
revision whose content is the redirect notice pointing at the new title,
promoted to the redirect document's current revision.  `d` still carries
`old_slug`/`old_title` from before the commit. -/
def makeRedirect (s : WikiState) (d : Document) : WikiState :=
  let rTitle := attrForRedirectTitle s.docs d
  let rSlug := attrForRedirectSlug s.docs d
  let content := REDIRECT_CONTENT d.title
  let rdoc : Document :=
    { id := s.next_id, locale := d.locale, slug := rSlug, title := rTitle
      parent := none, is_localizable := false
      html := wiki_to_html content
      current_revision := some (s.next_id + 1), saved := true
      old_slug := none, old_title := none }
  let rrev : Revision :=
    { id := s.next_id + 1, document := s.next_id, content := content
      based_on := none, is_approved := true, reviewed := true
      significance := 0 }
  { s with docs := s.docs ++ [rdoc], revs := s.revs ++ [rrev]
           next_id := s.next_id + 2 }

/-- Modelled from the spec: a translation's parent must exist and be
localizable (ValidationError otherwise). -/
def parentOk (s : WikiState) (d : Document) : Bool :=
  match d.parent with
  | none => true
  | some pid =>
    match findDoc s pid with
    | some p => p.is_localizable
    | none => false

def hasChildren (s : WikiState) (i : Nat) : Bool :=
  s.docs.any (fun d => d.parent == some i)

/-- Modelled from the spec: a document with translation children cannot be
made non-localizable (ValidationError otherwise). -/
def childrenOk (s : WikiState) (d : Document) : Bool :=
  d.is_localizable || !(hasChildren s d.id)

/-- Modelled from the spec: commit of `Document.save()` once validation
passed — update the row (or insert it on first save), clear the
remembered old slug/title, and if the document pre-existed under a
different slug or title, generate exactly one redirect document. -/
def docSaveCommit (s : WikiState) (d : Document) : WikiState :=
  let dSaved := { d with saved := true, old_slug := none, old_title := none }
  let s1 := if s.docs.any (fun x => x.id == d.id)
    then { s with docs := replaceDoc s.docs dSaved }
    else { s with docs := s.docs ++ [dSaved] }
  if d.old_slug.isSome || d.old_title.isSome then makeRedirect s1 d else s1

/-- Modelled from the spec: `Document.save()` — validate the localization
constraints, then commit. -/
def documentSave (s : WikiState) (d : Document) : Except String WikiState :=
  if !parentOk s d then
    .error "ValidationError: parent of a translation must be localizable"
  else if !childrenOk s d then
    .error "ValidationError: document with translations must stay localizable"
  else
    .ok (docSaveCommit s d)

/-- Modelled from the spec: the remembering slug setter — only after the
document was saved does changing the slug record `old_slug`; changing it
back clears it; a second change keeps the first remembered value. -/
def setSlug (d : Document) (v : String) : Document :=
  if !d.saved then { d with slug := v }
  else
    match d.old_slug with
    | none => if v == d.slug then d else { d with slug := v, old_slug := some d.slug }
    | some old => if v == old then { d with slug := v, old_slug := none }
                  else { d with slug := v }

/-- Modelled from the spec: the remembering title setter, symmetric to
`setSlug`. -/
def setTitle (d : Document) (v : String) : Document :=
  if !d.saved then { d with title := v }
  else
    match d.old_title with
    | none => if v == d.title then d else { d with title := v, old_title := some d.title }
    | some old => if v == old then { d with title := v, old_title := none }
                  else { d with title := v }

/-- Modelled from the spec: a document's English original — its parent
when it is a translation, itself otherwise. -/
def originalId (d : Document) : Nat :=
  match d.parent with
  | some pid => pid
  | none => d.id

/-- Modelled from the spec: the current revision of the document's English
original, the value a bad `based_on` is corrected to. -/
def originalCurrentRev (s : WikiState) (d : Document) : Option Nat :=
  match findDoc s (originalId d) with
  | some od => od.current_revision
  | none => none

/-- Modelled from the spec: `Revision._based_on_is_clean()` — returns the
correct `based_on` value and whether the present one was already correct.
`based_on` must reference a revision of the document's English
original. -/
def basedOnIsClean (s : WikiState) (r : Revision) : Option Nat × Bool :=
  match findDoc s r.document with
  | none => (r.based_on, true)
  | some d =>
    match r.based_on with
    | none => (none, true)
    | some b =>
      match findRev s b with
      | none => (originalCurrentRev s d, false)
      | some br =>
        if br.document == originalId d then (some b, true)
        else (originalCurrentRev s d, false)

/-- Modelled from the spec: `Revision.make_current()` — promote the
revision on its document and re-render the cached html from the
revision's content. -/
def makeCurrent (s : WikiState) (r : Revision) : WikiState :=
  { s with docs := s.docs.map (fun d =>
      if d.id == r.document then
        { d with current_revision := some r.id, html := wiki_to_html r.content }
      else d) }

/-- Modelled from the spec: `Revision.save()` — a bad `based_on` raises
`ProgrammingError`; otherwise the row is written and, when the revision
is approved, it is promoted to the document's current revision. -/
def revisionSave (s : WikiState) (r : Revision) : Except String WikiState :=
  if !(basedOnIsClean s r).2 then
    .error "ProgrammingError: based_on must be a revision of the English document"
  else
    let s1 := if s.revs.any (fun x => x.id == r.id)
      then { s with revs := replaceRev s.revs r }
      else { s with revs := s.revs ++ [r] }
    .ok (if r.is_approved then makeCurrent s1 r else s1)

/-- Modelled from the spec: `Revision.clean()` — returns the revision with
`based_on` corrected, and whether a ValidationError was raised. -/
def revisionClean (s : WikiState) (r : Revision) : Revision × Bool :=
  let c := basedOnIsClean s r
  if c.2 then (r, false) else ({ r with based_on := c.1 }, true)

/-- Modelled from the spec: the review view's approve/reject action — mark
the revision reviewed (and approved, when approving), save it (promoting
it on approval), and enqueue the reviewed notification. -/
def reviewRevision (s : WikiState) (rid : Nat) (approve : Bool)
    (sig : Nat) : WikiState :=
  match findRev s rid with
  | none => s
  | some r =>
    let r2 := if approve then
        { r with reviewed := true, is_approved := true, significance := sig }
      else { r with reviewed := true }
    let s1 := { s with revs := replaceRev s.revs r2 }
    let s2 := if approve then makeCurrent s1 r2 else s1
    { s2 with reviewed_notifications := rid :: s2.reviewed_notifications }

/-- Modelled from the spec: creating a brand-new document (the new-document
and first-translation flows) — allocate an id and run `Document.save()`. -/
def newDocument (s : WikiState) (locale slug title : String)
    (parent : Option Nat) (loc : Bool) : Except String WikiState :=
  let d : Document :=
    { id := s.next_id, locale := locale, slug := slug, title := title
      parent := parent, is_localizable := loc, html := ""
      current_revision := none, saved := false
      old_slug := none, old_title := none }
  documentSave { s with next_id := s.next_id + 1 } d

/-- Modelled from the spec: constructing an in-memory document and changing
its title through the remembering setter before the first save (the
unsaved-rename scenario of the tests). -/
def constructChangeSave (s : WikiState) (locale slug title newTitle : String) :
    Except String WikiState :=
  let d : Document :=
    { id := s.next_id, locale := locale, slug := slug, title := title
      parent := none, is_localizable := true, html := ""
      current_revision := none, saved := false
      old_slug := none, old_title := none }
  documentSave { s with next_id := s.next_id + 1 } (setTitle d newTitle)

/-- Modelled from the spec: the document-edit flow on document metadata —
fetch the row, run the new slug and title through the remembering
setters, set localizability, and save. -/
def editDocument (s : WikiState) (docId : Nat) (newSlug newTitle : String)
    (loc : Bool) : Except String WikiState :=
  match findDoc s docId with
  | none => .error "404: no such document"
  | some d =>
    documentSave s (setTitle (setSlug { d with is_localizable := loc } newSlug) newTitle)

/-- Modelled from the spec: creating a revision through the edit/translate
form (unapproved) or as an already-approved revision — allocate an id and
run `Revision.save()`. -/
def newRevision (s : WikiState) (docId : Nat) (content : String)
    (based_on : Option Nat) (approved : Bool) : Except String WikiState :=
  match findDoc s docId with
  | none => .error "404: no such document"
  | some _ =>
    let r : Revision :=
      { id := s.next_id, document := docId, content := content
        based_on := based_on, is_approved := approved, reviewed := false
        significance := 0 }
    revisionSave { s with next_id := s.next_id + 1 } r

/-- Modelled from the spec: the value rendered into the edit/translate
form's hidden `based_on` input when the form is loaded — the current
revision of the (English) document at load time. -/
def editFormBasedOn (s : WikiState) (docId : Nat) : Option Nat :=
  match findDoc s docId with
  | some d => d.current_revision
  | none => none

def isErr {α : Type} : Except String α → Bool
  | .ok _ => false
  | .error _ => true

def tryOp (e : Except String WikiState) (s : WikiState) : WikiState :=
  match e with
  | .ok s2 => s2
  | .error _ => s

/-- Modelled from the spec: the user-reachable mutating operations of the
wiki workflow. -/
inductive Op where
  | newDoc (locale slug title : String) (parent : Option Nat) (loc : Bool)
  | editDoc (docId : Nat) (newSlug newTitle : String) (loc : Bool)
  | newRev (docId : Nat) (content : String) (based_on : Option Nat) (approved : Bool)
  | review (rid : Nat) (approve : Bool) (sig : Nat)

def applyOp (s : WikiState) : Op → WikiState
  | .newDoc locale slug title parent loc => tryOp (newDocument s locale slug title parent loc) s
  | .editDoc docId newSlug newTitle loc => tryOp (editDocument s docId newSlug newTitle loc) s
  | .newRev docId content based_on approved => tryOp (newRevision s docId content based_on approved) s
  | .review rid approve sig => reviewRevision s rid approve sig

/-- An op that approves a revision (the review view's approve action, or a
revision saved as already approved). -/
def approvesRevision : Op → Bool
  | .newRev _ _ _ approved => approved
  | .review _ approve _ => approve
  | _ => false

/-- The states reachable from the empty store by the wiki operations. -/
inductive Reachable : WikiState → Prop where
  | init : Reachable initState
  | step {s : WikiState} (op : Op) : Reachable s → Reachable (applyOp s op)

/-- Every document's `current_revision`, if set, resolves to an approved
revision of that document (decidable check). -/
def currentRevOkB (s : WikiState) : Bool :=
  s.docs.all (fun d =>
    match d.current_revision with
    | none => true
    | some rid =>
      match findRev s rid with
      | some r => r.document == d.id && r.is_approved
      | none => false)

/-- Every document's `parent`, if set, resolves to a localizable document
(decidable check). -/
def parentLocalizableB (s : WikiState) : Bool :=
  s.docs.all (fun d =>
    match d.parent with
    | none => true
    | some pid =>
      match findDoc s pid with
      | some p => p.is_localizable
      | none => false)

/-- The document at id `i` exists in both states with the same
`current_revision` (decidable check, used to state frame conditions). -/
def currentPreservedB (s s2 : WikiState) (i : Nat) : Bool :=
  match findDoc s i, findDoc s2 i with
  | some d, some d2 => d2.current_revision == d.current_revision
  | some _, none => false
  | none, _ => true

/-! ## List helper lemmas -/

theorem find?_map_pred {α : Type} (l : List α) (g : α → α) (p : α → Bool)
    (hp : ∀ x, p (g x) = p x) : (l.map g).find? p = (l.find? p).map g := by
  induction l with
  | nil => rfl
  | cons x xs ih =>
    simp only [List.map_cons]
    cases h : p x with
    | true =>
      rw [List.find?_cons_of_pos _ (by rw [hp]; exact h),
        List.find?_cons_of_pos _ h]
      rfl
    | false =>
      rw [List.find?_cons_of_neg _ (by rw [hp]; simp [h]),
        List.find?_cons_of_neg _ (by simp [h])]
      exact ih

theorem find?_replaceRev (revs : List Revision) (r2 : Revision) (i : Nat) :
    (replaceRev revs r2).find? (fun x => x.id == i) =
    (revs.find? (fun x => x.id == i)).map
      (fun x => if x.id == r2.id then r2 else x) := by
  apply find?_map_pred
  intro x
  by_cases h : x.id == r2.id
  · simp only [h, if_pos]
    have : x.id = r2.id := by simpa using h
    rw [this]
  · simp [h]

theorem findDoc_makeCurrent (s : WikiState) (r : Revision) (i : Nat) :
    findDoc (makeCurrent s r) i =
    (findDoc s i).map (fun d => if d.id == r.document then
      { d with current_revision := some r.id, html := wiki_to_html r.content }
      else d) := by
  unfold findDoc makeCurrent
  apply find?_map_pred
  intro x
  by_cases h : x.id == r.document
  · simp [h]
  · simp [h]

theorem findDoc_replaceDoc (docs : List Document) (d2 : Document) (i : Nat) :
    (replaceDoc docs d2).find? (fun x => x.id == i) =
    (docs.find? (fun x => x.id == i)).map
      (fun x => if x.id == d2.id then d2 else x) := by
  apply find?_map_pred
  intro x
  by_cases h : x.id == d2.id
  · simp only [h, if_pos]
    have : x.id = d2.id := by simpa using h
    rw [this]
  · simp [h]

theorem find?_append_some {α : Type} {l₁ : List α} (l₂ : List α)
    {p : α → Bool} {a : α} (h : l₁.find? p = some a) :
    (l₁ ++ l₂).find? p = some a := by
  rw [List.find?_append, h]
  rfl

theorem find?_id_none {α : Type} (l : List α) (key : α → Nat) (n : Nat)
    (h : ∀ x ∈ l, key x < n) : l.find? (fun x => key x == n) = none := by
  induction l with
  | nil => rfl
  | cons x xs ih =>
    rw [List.find?_cons_of_neg]
    · exact ih (fun y hy => h y (List.mem_cons_of_mem x hy))
    · have := h x (List.mem_cons_self x xs)
      simp
      omega

/-! ## Theorems -/

/-- Saving an unapproved revision whose `based_on` is a revision of the
target document's English original succeeds and only appends the revision
row. -/
theorem newRevision_unapproved_ok (S : WikiState) (tid : Nat) (gtd : Document)
    (fc : String) (p : Nat) (pr : Revision)
    (hfd : findDoc S tid = some gtd)
    (hpr2 : findRev S p = some pr)
    (hbo : pr.document = originalId gtd)
    (hanyS : S.revs.any (fun x => x.id == S.next_id) = false) :
    newRevision S tid fc (some p) false = .ok
      ⟨S.docs, S.revs ++ [⟨S.next_id, tid, fc, some p, false, false, 0⟩],
       S.reviewed_notifications, S.next_id + 1⟩ := by
  have hfdX : findDoc { S with next_id := S.next_id + 1 } tid = some gtd := hfd
  have hprX : findRev { S with next_id := S.next_id + 1 } p = some pr := hpr2
  unfold newRevision
  rw [hfd]
  simp only []
  unfold revisionSave basedOnIsClean
  simp only [hfdX, hprX, hbo, beq_self_eq_true, if_true]
  simp [hanyS]

/-- The inductive invariant of the wiki store: allocated ids are below the
allocator, every document's current revision resolves to an approved
revision of that document, and every parent pointer resolves to a
localizable document. -/
structure Inv (s : WikiState) : Prop where
  docs_lt : ∀ x ∈ s.docs, x.id < s.next_id
  revs_lt : ∀ x ∈ s.revs, x.id < s.next_id
  current_ok : ∀ d ∈ s.docs, ∀ rid, d.current_revision = some rid →
    ∃ r, findRev s rid = some r ∧ r.document = d.id ∧ r.is_approved = true
  parent_loc : ∀ d ∈ s.docs, ∀ pid, d.parent = some pid →
    ∃ pd, findDoc s pid = some pd ∧ pd.is_localizable = true

theorem currentRevOkB_of (s : WikiState)
    (h : ∀ d ∈ s.docs, ∀ rid, d.current_revision = some rid →
      ∃ r, findRev s rid = some r ∧ r.document = d.id ∧ r.is_approved = true) :
    currentRevOkB s = true := by
  unfold currentRevOkB
  rw [List.all_eq_true]
  intro d hd
  cases hcr : d.current_revision with
  | none => simp [hcr]
  | some rid =>
    obtain ⟨r, hr, hrdoc, happ⟩ := h d hd rid hcr
    simp [hcr, hr, hrdoc, happ]

theorem parentLocalizableB_of (s : WikiState)
    (h : ∀ d ∈ s.docs, ∀ pid, d.parent = some pid →
      ∃ pd, findDoc s pid = some pd ∧ pd.is_localizable = true) :
    parentLocalizableB s = true := by
  unfold parentLocalizableB
  rw [List.all_eq_true]
  intro d hd
  cases hpr : d.parent with
  | none => simp [hpr]
  | some pid =>
    obtain ⟨pd, hpd, hloc⟩ := h d hd pid hpr
    simp [hpr, hpd, hloc]

/-- The redirect generator preserves the store invariant: the appended
redirect document's only revision is approved, belongs to it and is its
current revision, and the redirect has no parent. -/
theorem inv_makeRedirect (S : WikiState) (d : Document) (hinv : Inv S) :
    Inv (makeRedirect S d) := by
  obtain ⟨hdl, hrl, hco, hpl⟩ := hinv
  have heq : makeRedirect S d = ⟨S.docs ++
      [⟨S.next_id, d.locale, attrForRedirectSlug S.docs d,
        attrForRedirectTitle S.docs d, none, false,
        wiki_to_html (REDIRECT_CONTENT d.title), some (S.next_id + 1), true,
        none, none⟩],
      S.revs ++ [⟨S.next_id + 1, S.next_id, REDIRECT_CONTENT d.title, none,
        true, true, 0⟩],
      S.reviewed_notifications, S.next_id + 2⟩ := rfl
  rw [heq]
  constructor
  · intro x hx
    rcases List.mem_append.mp hx with h | h
    · show x.id < S.next_id + 2
      exact Nat.lt_trans (hdl x h) (by omega)
    · rw [List.mem_singleton.mp h]
      show S.next_id < S.next_id + 2
      omega
  · intro x hx
    rcases List.mem_append.mp hx with h | h
    · show x.id < S.next_id + 2
      exact Nat.lt_trans (hrl x h) (by omega)
    · rw [List.mem_singleton.mp h]
      show S.next_id + 1 < S.next_id + 2
      omega
  · intro x hx rid hrid
    rcases List.mem_append.mp hx with h | h
    · obtain ⟨r, hr, h1, h2⟩ := hco x h rid hrid
      exact ⟨r, find?_append_some _ hr, h1, h2⟩
    · rw [List.mem_singleton.mp h] at hrid ⊢
      have hrid2 : rid = S.next_id + 1 := by
        have : some (S.next_id + 1) = some rid := hrid
        simpa using this.symm
      subst hrid2
      refine ⟨⟨S.next_id + 1, S.next_id, REDIRECT_CONTENT d.title, none,
        true, true, 0⟩, ?_, rfl, rfl⟩
      show (S.revs ++ [_]).find? _ = _
      rw [List.find?_append,
        find?_id_none S.revs (fun x => x.id) (S.next_id + 1)
          (fun x hx2 => Nat.lt_trans (hrl x hx2) (Nat.lt_succ_self _))]
      simp
  · intro x hx pid hpid
    rcases List.mem_append.mp hx with h | h
    · obtain ⟨pd, hpd, hloc⟩ := hpl x h pid hpid
      exact ⟨pd, find?_append_some _ hpd, hloc⟩
    · rw [List.mem_singleton.mp h] at hpid
      exact absurd hpid (by simp)

theorem setSlug_frame (d : Document) (v : String) :
    (setSlug d v).parent = d.parent ∧ (setSlug d v).id = d.id ∧
    (setSlug d v).current_revision = d.current_revision ∧
    (setSlug d v).is_localizable = d.is_localizable := by
  unfold setSlug
  repeat' split
  all_goals exact ⟨rfl, rfl, rfl, rfl⟩

theorem setTitle_frame (d : Document) (v : String) :
    (setTitle d v).parent = d.parent ∧ (setTitle d v).id = d.id ∧
    (setTitle d v).current_revision = d.current_revision ∧
    (setTitle d v).is_localizable = d.is_localizable := by
  unfold setTitle
  repeat' split
  all_goals exact ⟨rfl, rfl, rfl, rfl⟩

/-- Committing a document save (update or insert, with or without the
redirect) preserves the store invariant. -/
theorem inv_docSaveCommit (S : WikiState) (d : Document) (hinv : Inv S)
    (hd_lt : d.id < S.next_id)
    (hpar : parentOk S d = true) (hch : childrenOk S d = true)
    (hdcur : ∀ rid, d.current_revision = some rid →
      ∃ r, findRev S rid = some r ∧ r.document = d.id ∧ r.is_approved = true)
    (hmemD : S.docs.any (fun x => x.id == d.id) = true →
      ∃ d0, d0 ∈ S.docs ∧ d0.parent = d.parent) :
    Inv (docSaveCommit S d) := by
  obtain ⟨hdl, hrl, hco, hpl⟩ := hinv
  have hloc_of_children : hasChildren S d.id = true → d.is_localizable = true := by
    intro hhc
    unfold childrenOk at hch
    rw [hhc] at hch
    simpa using hch
  have hparent_resolve : ∀ pid2, d.parent = some pid2 →
      ∃ z, findDoc S pid2 = some z ∧ z.is_localizable = true := by
    intro pid2 hep
    unfold parentOk at hpar
    rw [hep] at hpar
    simp only [] at hpar
    cases hfz : findDoc S pid2 with
    | none =>
      rw [hfz] at hpar
      exact Bool.noConfusion hpar
    | some z =>
      rw [hfz] at hpar
      exact ⟨z, rfl, hpar⟩
  have hpost : ∀ pid, ∀ z, findDoc S pid = some z → z.is_localizable = true →
      ∀ c : Document, c ∈ S.docs → c.parent = some pid →
      ∃ pd, (replaceDoc S.docs
        ({ d with saved := true, old_slug := none, old_title := none })).find?
        (fun w => w.id == pid) = some pd ∧ pd.is_localizable = true := by
    intro pid z hz hzloc c hcmem hcpar
    rw [findDoc_replaceDoc]
    unfold findDoc at hz
    rw [hz]
    simp only [Option.map_some']
    by_cases h2 : (z.id == ({ d with saved := true, old_slug := none, old_title := none } : Document).id)
    · have hzid : z.id = pid := by simpa using List.find?_some hz
      have hpid_d : pid = d.id := by
        rw [← hzid]
        simpa using h2
      have hchild : hasChildren S d.id = true := by
        unfold hasChildren
        rw [List.any_eq_true]
        exact ⟨c, hcmem, by rw [hcpar, hpid_d]; simp⟩
      have hdloc := hloc_of_children hchild
      refine ⟨_, by rw [if_pos h2], ?_⟩
      simpa using hdloc
    · refine ⟨z, by rw [if_neg h2], hzloc⟩
  have hupdate : S.docs.any (fun x => x.id == d.id) = true →
      Inv ⟨replaceDoc S.docs
        ({ d with saved := true, old_slug := none, old_title := none }),
        S.revs, S.reviewed_notifications, S.next_id⟩ := by
    intro hmem
    obtain ⟨d0, hd0mem, hd0par⟩ := hmemD hmem
    constructor
    · intro x hx
      obtain ⟨y, hy, hxy⟩ := List.mem_map.mp hx
      by_cases h : (y.id == ({ d with saved := true, old_slug := none, old_title := none } : Document).id)
      · rw [if_pos h] at hxy
        rw [← hxy]
        exact hd_lt
      · rw [if_neg h] at hxy
        rw [← hxy]
        exact hdl y hy
    · exact hrl
    · intro x hx rid hrid
      obtain ⟨y, hy, hxy⟩ := List.mem_map.mp hx
      by_cases h : (y.id == ({ d with saved := true, old_slug := none, old_title := none } : Document).id)
      · rw [if_pos h] at hxy
        rw [← hxy] at hrid
        obtain ⟨r, hr, h1, h2⟩ := hdcur rid hrid
        rw [← hxy]
        exact ⟨r, hr, h1, h2⟩
      · rw [if_neg h] at hxy
        rw [← hxy] at hrid
        obtain ⟨r, hr, h1, h2⟩ := hco y hy rid hrid
        rw [← hxy]
        exact ⟨r, hr, h1, h2⟩
    · intro x hx pid hpid
      obtain ⟨y, hy, hxy⟩ := List.mem_map.mp hx
      by_cases h : (y.id == ({ d with saved := true, old_slug := none, old_title := none } : Document).id)
      · rw [if_pos h] at hxy
        rw [← hxy] at hpid
        have hdp : d.parent = some pid := hpid
        obtain ⟨z, hz, hzloc⟩ := hparent_resolve pid hdp
        exact hpost pid z hz hzloc d0 hd0mem (by rw [hd0par]; exact hdp)
      · rw [if_neg h] at hxy
        rw [← hxy] at hpid
        obtain ⟨z, hz, hzloc⟩ := hpl y hy pid hpid
        exact hpost pid z hz hzloc y hy hpid
  have hinsert : Inv ⟨S.docs ++
      [({ d with saved := true, old_slug := none, old_title := none })],
      S.revs, S.reviewed_notifications, S.next_id⟩ := by
    constructor
    · intro x hx
      rcases List.mem_append.mp hx with h | h
      · exact hdl x h
      · rw [List.mem_singleton.mp h]
        exact hd_lt
    · exact hrl
    · intro x hx rid hrid
      rcases List.mem_append.mp hx with h | h
      · obtain ⟨r, hr, h1, h2⟩ := hco x h rid hrid
        exact ⟨r, hr, h1, h2⟩
      · rw [List.mem_singleton.mp h] at hrid ⊢
        obtain ⟨r, hr, h1, h2⟩ := hdcur rid hrid
        exact ⟨r, hr, h1, h2⟩
    · intro x hx pid hpid
      rcases List.mem_append.mp hx with h | h
      · obtain ⟨z, hz, hzloc⟩ := hpl x h pid hpid
        exact ⟨z, find?_append_some _ hz, hzloc⟩
      · rw [List.mem_singleton.mp h] at hpid
        obtain ⟨z, hz, hzloc⟩ := hparent_resolve pid hpid
        exact ⟨z, find?_append_some _ hz, hzloc⟩
  by_cases hmem : S.docs.any (fun x => x.id == d.id) = true
  · by_cases hold : (d.old_slug.isSome || d.old_title.isSome) = true
    · simp only [docSaveCommit, hmem, hold, if_true]
      exact inv_makeRedirect _ d (hupdate hmem)
    · have hold2 : (d.old_slug.isSome || d.old_title.isSome) = false := by
        simpa using hold
      simp only [docSaveCommit, hmem, hold2, if_true, Bool.false_eq_true,
        if_false]
      exact hupdate hmem
  · have hmem2 : S.docs.any (fun x => x.id == d.id) = false := by
      simpa using hmem
    by_cases hold : (d.old_slug.isSome || d.old_title.isSome) = true
    · simp only [docSaveCommit, hmem2, hold, Bool.false_eq_true, if_false,
        if_true]
      exact inv_makeRedirect _ d hinsert
    · have hold2 : (d.old_slug.isSome || d.old_title.isSome) = false := by
        simpa using hold
      simp only [docSaveCommit, hmem2, hold2, Bool.false_eq_true, if_false]
      exact hinsert

/-- A successful `Document.save()` preserves the store invariant. -/
theorem inv_documentSave_ok (S : WikiState) (d : Document) (s2 : WikiState)
    (hok : documentSave S d = .ok s2) (hinv : Inv S)
    (hd_lt : d.id < S.next_id)
    (hdcur : ∀ rid, d.current_revision = some rid →
      ∃ r, findRev S rid = some r ∧ r.document = d.id ∧ r.is_approved = true)
    (hmemD : S.docs.any (fun x => x.id == d.id) = true →
      ∃ d0, d0 ∈ S.docs ∧ d0.parent = d.parent) :
    Inv s2 := by
  unfold documentSave at hok
  by_cases hpar : parentOk S d = true
  · by_cases hch : childrenOk S d = true
    · rw [if_neg (by simp [hpar]), if_neg (by simp [hch])] at hok
      cases hok
      exact inv_docSaveCommit S d hinv hd_lt hpar hch hdcur hmemD
    · rw [if_neg (by simp [hpar]),
        if_pos (by simp [Bool.not_eq_true] at hch ⊢; exact hch)] at hok
      exact Except.noConfusion hok
  · rw [if_pos (by simp [Bool.not_eq_true] at hpar ⊢; exact hpar)] at hok
    exact Except.noConfusion hok

/-- A successful `Revision.save()` with a fresh revision id preserves the
store invariant. -/
theorem inv_revisionSave_ok (S : WikiState) (r : Revision) (s2 : WikiState)
    (hok : revisionSave S r = .ok s2) (hinv : Inv S)
    (hr_lt : r.id < S.next_id)
    (hanyF : S.revs.any (fun x => x.id == r.id) = false) :
    Inv s2 := by
  obtain ⟨hdl, hrl, hco, hpl⟩ := hinv
  have hfind_none : S.revs.find? (fun x => x.id == r.id) = none := by
    rw [List.find?_eq_none]
    intro x hx
    have := List.any_eq_false.mp hanyF x hx
    simpa using this
  unfold revisionSave at hok
  by_cases hcl : (basedOnIsClean S r).2 = true
  · rw [if_neg (by simp [hcl])] at hok
    simp only [hanyF, Bool.false_eq_true, if_false] at hok
    by_cases happ : r.is_approved = true
    · rw [happ, if_pos rfl] at hok
      cases hok
      constructor
      · intro x hx
        obtain ⟨y, hy, hxy⟩ := List.mem_map.mp hx
        by_cases h : (y.id == r.document)
        · rw [if_pos h] at hxy
          rw [← hxy]
          exact hdl y hy
        · rw [if_neg h] at hxy
          rw [← hxy]
          exact hdl y hy
      · intro x hx
        rcases List.mem_append.mp hx with h | h
        · exact hrl x h
        · rw [List.mem_singleton.mp h]
          exact hr_lt
      · intro x hx rid hrid
        obtain ⟨y, hy, hxy⟩ := List.mem_map.mp hx
        by_cases h : (y.id == r.document)
        · rw [if_pos h] at hxy
          rw [← hxy] at hrid
          have hrid2 : rid = r.id := by
            have : some r.id = some rid := hrid
            simpa using this.symm
          refine ⟨r, ?_, ?_, happ⟩
          · show (S.revs ++ [r]).find? (fun x => x.id == rid) = some r
            rw [hrid2, List.find?_append, hfind_none]
            simp
          · rw [← hxy]
            show r.document = y.id
            have : y.id = r.document := by simpa using h
            exact this.symm
        · rw [if_neg h] at hxy
          rw [← hxy] at hrid ⊢
          obtain ⟨rr, hrr, h1, h2⟩ := hco y hy rid hrid
          exact ⟨rr, find?_append_some _ hrr, h1, h2⟩
      · intro x hx pid hpid
        obtain ⟨y, hy, hxy⟩ := List.mem_map.mp hx
        have hpidy : y.parent = some pid := by
          by_cases h : (y.id == r.document)
          · rw [if_pos h] at hxy
            rw [← hxy] at hpid
            exact hpid
          · rw [if_neg h] at hxy
            rw [← hxy] at hpid
            exact hpid
        obtain ⟨z, hz, hzloc⟩ := hpl y hy pid hpidy
        refine ⟨if (z.id == r.document) = true then
          { z with current_revision := some r.id,
                   html := wiki_to_html r.content } else z, ?_, ?_⟩
        · show (S.docs.map _).find? _ = _
          rw [find?_map_pred _ _ _
            (fun w => by by_cases hw : (w.id == r.document) <;> simp [hw])]
          rw [show S.docs.find? (fun w => w.id == pid) = some z from hz]
          rfl
        · by_cases hzz : (z.id == r.document)
          · rw [if_pos hzz]
            exact hzloc
          · rw [if_neg hzz]
            exact hzloc
    · have happ2 : r.is_approved = false := by simpa using happ
      rw [happ2, if_neg (by simp)] at hok
      cases hok
      constructor
      · exact hdl
      · intro x hx
        rcases List.mem_append.mp hx with h | h
        · exact hrl x h
        · rw [List.mem_singleton.mp h]
          exact hr_lt
      · intro x hx rid hrid
        obtain ⟨rr, hrr, h1, h2⟩ := hco x hx rid hrid
        exact ⟨rr, find?_append_some _ hrr, h1, h2⟩
      · intro x hx pid hpid
        obtain ⟨z, hz, hzloc⟩ := hpl x hx pid hpid
        exact ⟨z, hz, hzloc⟩
  · rw [if_pos (by simp [Bool.not_eq_true] at hcl ⊢; exact hcl)] at hok
    exact Except.noConfusion hok

/-- Replacing the reviewed revision (same id and document, approval only
strengthened or preserved) keeps every revision-id lookup resolving to a
revision with the same document and no-weaker approval. -/
theorem findRev_replace_preserve (s : WikiState) (r r2 : Revision) (rid : Nat)
    (hfr : findRev s rid = some r) (hr2id : r2.id = r.id)
    (hdoc2 : r2.document = r.document)
    (happ2 : r.is_approved = true → r2.is_approved = true)
    (rid0 : Nat) (rr : Revision) (hrr : findRev s rid0 = some rr) :
    ∃ rr2, (replaceRev s.revs r2).find? (fun x => x.id == rid0) = some rr2 ∧
      rr2.document = rr.document ∧
      (rr.is_approved = true → rr2.is_approved = true) := by
  rw [find?_replaceRev]
  rw [show s.revs.find? (fun x => x.id == rid0) = some rr from hrr]
  by_cases h : (rr.id == r2.id)
  · have hrr_id : rr.id = rid0 := by simpa using List.find?_some hrr
    have hr_id : r.id = rid := by simpa using List.find?_some hfr
    have hrid0 : rid0 = rid := by
      rw [← hrr_id, ← hr_id]
      rw [hr2id] at h
      simpa using h
    have hrr_r : rr = r := by
      rw [hrid0] at hrr
      rw [hfr] at hrr
      exact (Option.some.injEq _ _ ▸ hrr).symm
    refine ⟨r2, by rw [Option.map_some', if_pos h], ?_, ?_⟩
    · rw [hdoc2, hrr_r]
    · intro hap
      exact happ2 (by rw [← hrr_r]; exact hap)
  · exact ⟨rr, by rw [Option.map_some', if_neg h], rfl, fun hap => hap⟩

/-- The review action (approve or reject) preserves the store invariant. -/
theorem inv_reviewRevision (s : WikiState) (hinv : Inv s) (rid : Nat)
    (app : Bool) (sig : Nat) : Inv (reviewRevision s rid app sig) := by
  obtain ⟨hdl, hrl, hco, hpl⟩ := hinv
  cases hfr : findRev s rid with
  | none =>
    have heq : reviewRevision s rid app sig = s := by
      unfold reviewRevision
      rw [hfr]
    rw [heq]
    exact ⟨hdl, hrl, hco, hpl⟩
  | some r =>
    have hr_id : r.id = rid := by simpa using List.find?_some hfr
    cases app with
    | true =>
      have heq : reviewRevision s rid true sig =
          ⟨s.docs.map (fun x => if x.id == r.document then
            { x with current_revision := some r.id,
                     html := wiki_to_html r.content } else x),
          replaceRev s.revs
            ({ r with reviewed := true, is_approved := true, significance := sig }),
          rid :: s.reviewed_notifications, s.next_id⟩ := by
        simp [reviewRevision, hfr, makeCurrent]
      rw [heq]
      constructor
      · intro x hx
        obtain ⟨y, hy, hxy⟩ := List.mem_map.mp hx
        by_cases h : (y.id == r.document)
        · rw [if_pos h] at hxy
          rw [← hxy]
          exact hdl y hy
        · rw [if_neg h] at hxy
          rw [← hxy]
          exact hdl y hy
      · intro x hx
        obtain ⟨y, hy, hxy⟩ := List.mem_map.mp hx
        by_cases h : (y.id == ({ r with reviewed := true, is_approved := true, significance := sig } : Revision).id)
        · rw [if_pos h] at hxy
          rw [← hxy]
          show r.id < s.next_id
          exact hrl r (List.mem_of_find?_eq_some hfr)
        · rw [if_neg h] at hxy
          rw [← hxy]
          exact hrl y hy
      · intro x hx rid2 hrid2
        obtain ⟨y, hy, hxy⟩ := List.mem_map.mp hx
        by_cases h : (y.id == r.document)
        · rw [if_pos h] at hxy
          rw [← hxy] at hrid2
          have hr2 : rid2 = r.id := by
            have : some r.id = some rid2 := hrid2
            simpa using this.symm
          obtain ⟨rr2, hfind, hdoc, happr⟩ := findRev_replace_preserve s r
            ({ r with reviewed := true, is_approved := true, significance := sig }) rid hfr rfl rfl (fun _ => rfl)
            rid r hfr
          refine ⟨({ r with reviewed := true, is_approved := true, significance := sig } : Revision), ?_, ?_, rfl⟩
          · show (replaceRev s.revs _).find? (fun x => x.id == rid2) = _
            rw [hr2, find?_replaceRev,
              show s.revs.find? (fun x => x.id == r.id) = some r by
                rw [hr_id]; exact hfr]
            simp
          · show r.document = x.id
            rw [← hxy]
            have : y.id = r.document := by simpa using h
            exact this.symm
        · rw [if_neg h] at hxy
          rw [← hxy] at hrid2 ⊢
          obtain ⟨rr, hrr, h1, h2⟩ := hco y hy rid2 hrid2
          obtain ⟨rr2, hfind, hdoc, happr⟩ := findRev_replace_preserve s r
            ({ r with reviewed := true, is_approved := true, significance := sig }) rid hfr rfl rfl (fun _ => rfl)
            rid2 rr hrr
          exact ⟨rr2, hfind, by rw [hdoc]; exact h1, happr h2⟩
      · intro x hx pid hpid
        obtain ⟨y, hy, hxy⟩ := List.mem_map.mp hx
        have hpidy : y.parent = some pid := by
          by_cases h : (y.id == r.document)
          · rw [if_pos h] at hxy
            rw [← hxy] at hpid
            exact hpid
          · rw [if_neg h] at hxy
            rw [← hxy] at hpid
            exact hpid
        obtain ⟨z, hz, hzloc⟩ := hpl y hy pid hpidy
        refine ⟨if (z.id == r.document) = true then
          { z with current_revision := some r.id,
                   html := wiki_to_html r.content } else z, ?_, ?_⟩
        · show (s.docs.map _).find? _ = _
          rw [find?_map_pred _ _ _
            (fun w => by by_cases hw : (w.id == r.document) <;> simp [hw])]
          rw [show s.docs.find? (fun w => w.id == pid) = some z from hz]
          rfl
        · by_cases hzz : (z.id == r.document)
          · rw [if_pos hzz]
            exact hzloc
          · rw [if_neg hzz]
            exact hzloc
    | false =>
      have heq : reviewRevision s rid false sig =
          ⟨s.docs, replaceRev s.revs ({ r with reviewed := true }),
          rid :: s.reviewed_notifications, s.next_id⟩ := by
        simp [reviewRevision, hfr]
      rw [heq]
      constructor
      · exact hdl
      · intro x hx
        obtain ⟨y, hy, hxy⟩ := List.mem_map.mp hx
        by_cases h : (y.id == ({ r with reviewed := true } : Revision).id)
        · rw [if_pos h] at hxy
          rw [← hxy]
          show r.id < s.next_id
          exact hrl r (List.mem_of_find?_eq_some hfr)
        · rw [if_neg h] at hxy
          rw [← hxy]
          exact hrl y hy
      · intro x hx rid2 hrid2
        obtain ⟨rr, hrr, h1, h2⟩ := hco x hx rid2 hrid2
        obtain ⟨rr2, hfind, hdoc, happr⟩ := findRev_replace_preserve s r
          ({ r with reviewed := true }) rid hfr rfl rfl (fun hap => hap)
          rid2 rr hrr
        exact ⟨rr2, hfind, by rw [hdoc]; exact h1, happr h2⟩
      · intro x hx pid hpid
        obtain ⟨z, hz, hzloc⟩ := hpl x hx pid hpid
        exact ⟨z, hz, hzloc⟩

/-- Every wiki operation preserves the store invariant. -/
theorem inv_applyOp (s : WikiState) (hinv : Inv s) (op : Op) :
    Inv (applyOp s op) := by
  obtain ⟨hdl, hrl, hco, hpl⟩ := hinv
  have hbump : Inv ⟨s.docs, s.revs, s.reviewed_notifications, s.next_id + 1⟩ :=
    ⟨fun x hx => Nat.lt_trans (hdl x hx) (Nat.lt_succ_self _),
     fun x hx => Nat.lt_trans (hrl x hx) (Nat.lt_succ_self _),
     fun x hx rid hrid => hco x hx rid hrid,
     fun x hx pid hpid => hpl x hx pid hpid⟩
  cases op with
  | newDoc l sl t par loc =>
    show Inv (tryOp (newDocument s l sl t par loc) s)
    cases hok : newDocument s l sl t par loc with
    | error e =>
      exact ⟨hdl, hrl, hco, hpl⟩
    | ok s2 =>
      show Inv s2
      unfold newDocument at hok
      refine inv_documentSave_ok _ _ s2 hok hbump ?_ ?_ ?_
      · show s.next_id < s.next_id + 1
        exact Nat.lt_succ_self _
      · intro rid hrid
        exact absurd hrid (by simp)
      · intro hmem
        exfalso
        obtain ⟨x, hx, hxe⟩ := List.any_eq_true.mp hmem
        have h1 := hdl x hx
        have h2 : x.id = s.next_id := by simpa using hxe
        omega
  | editDoc did nsl ntl loc =>
    show Inv (tryOp (editDocument s did nsl ntl loc) s)
    cases hok : editDocument s did nsl ntl loc with
    | error e =>
      exact ⟨hdl, hrl, hco, hpl⟩
    | ok s2 =>
      show Inv s2
      unfold editDocument at hok
      cases hfd : findDoc s did with
      | none =>
        rw [hfd] at hok
        exact Except.noConfusion hok
      | some d0 =>
        rw [hfd] at hok
        simp only [] at hok
        set d2 : Document :=
          setTitle (setSlug ({ d0 with is_localizable := loc }) nsl) ntl
          with hd2def
        obtain ⟨hsp, hsi, hsc, _⟩ :=
          setSlug_frame ({ d0 with is_localizable := loc }) nsl
        obtain ⟨htp, hti, htc, _⟩ :=
          setTitle_frame (setSlug ({ d0 with is_localizable := loc }) nsl) ntl
        have hd0mem : d0 ∈ s.docs := List.mem_of_find?_eq_some hfd
        have hid2 : d2.id = d0.id := by
          rw [hd2def, hti, hsi]
        have hpar2 : d2.parent = d0.parent := by
          rw [hd2def, htp, hsp]
        have hcur2 : d2.current_revision = d0.current_revision := by
          rw [hd2def, htc, hsc]
        refine inv_documentSave_ok _ _ s2 hok ⟨hdl, hrl, hco, hpl⟩ ?_ ?_ ?_
        · rw [hid2]
          exact hdl d0 hd0mem
        · intro rid hrid
          rw [hcur2] at hrid
          obtain ⟨r, hr, h1, h2⟩ := hco d0 hd0mem rid hrid
          exact ⟨r, hr, by rw [hid2]; exact h1, h2⟩
        · intro _
          exact ⟨d0, hd0mem, hpar2.symm⟩
  | newRev did c b app =>
    show Inv (tryOp (newRevision s did c b app) s)
    cases hok : newRevision s did c b app with
    | error e =>
      exact ⟨hdl, hrl, hco, hpl⟩
    | ok s2 =>
      show Inv s2
      unfold newRevision at hok
      cases hfd : findDoc s did with
      | none =>
        rw [hfd] at hok
        exact Except.noConfusion hok
      | some d0 =>
        rw [hfd] at hok
        simp only [] at hok
        refine inv_revisionSave_ok _ _ s2 hok hbump ?_ ?_
        · show s.next_id < s.next_id + 1
          exact Nat.lt_succ_self _
        · show s.revs.any (fun x => x.id == s.next_id) = false
          rw [List.any_eq_false]
          intro x hx
          simp only [beq_iff_eq]
          exact Nat.ne_of_lt (hrl x hx)
  | review rid app sig =>
    exact inv_reviewRevision s ⟨hdl, hrl, hco, hpl⟩ rid app sig

/-- Every reachable wiki store satisfies the invariant. -/
theorem inv_reachable (s : WikiState) (h : Reachable s) : Inv s := by
  induction h with
  | init =>
    constructor
    · intro x hx
      exact absurd hx (List.not_mem_nil x)
    · intro x hx
      exact absurd hx (List.not_mem_nil x)
    · intro x hx
      exact absurd hx (List.not_mem_nil x)
    · intro x hx
      exact absurd hx (List.not_mem_nil x)
  | step op hs ih =>
    exact inv_applyOp _ ih op

theorem currentPreservedB_refl (s : WikiState) (i : Nat) :
    currentPreservedB s s i = true := by
  unfold currentPreservedB
  cases h : findDoc s i <;> simp

theorem currentPreservedB_of (s s2 : WikiState) (i : Nat)
    (h : ∀ d, findDoc s i = some d → ∃ d2, findDoc s2 i = some d2 ∧
      d2.current_revision = d.current_revision) :
    currentPreservedB s s2 i = true := by
  unfold currentPreservedB
  cases hf : findDoc s i with
  | none => rfl
  | some d =>
    obtain ⟨d2, hd2, hcur⟩ := h d hf
    rw [hd2]
    simp [hcur]

/-- A successful `Document.save()` is exactly the commit. -/
theorem documentSave_ok_commit (S : WikiState) (d : Document) (s2 : WikiState)
    (hok : documentSave S d = .ok s2) : s2 = docSaveCommit S d := by
  unfold documentSave at hok
  by_cases hp : parentOk S d = true
  · by_cases hc : childrenOk S d = true
    · rw [if_neg (by simp [hp]), if_neg (by simp [hc])] at hok
      cases hok
      rfl
    · rw [if_neg (by simp [hp]),
        if_pos (by simp [Bool.not_eq_true] at hc ⊢; exact hc)] at hok
      exact Except.noConfusion hok
  · rw [if_pos (by simp [Bool.not_eq_true] at hp ⊢; exact hp)] at hok
    exact Except.noConfusion hok

/-- What a document lookup sees after a commit: either the unchanged row,
or (when the looked-up id is the saved document's id) the saved row. -/
theorem docSaveCommit_findDoc_some (S : WikiState) (d : Document)
    (i : Nat) (dd : Document) (hfd : findDoc S i = some dd) :
    findDoc (docSaveCommit S d) i = some dd ∨
    (dd.id = d.id ∧ findDoc (docSaveCommit S d) i =
      some ({ d with saved := true, old_slug := none, old_title := none })) := by
  have hfd2 : S.docs.find? (fun x => x.id == i) = some dd := hfd
  have hrepl : (replaceDoc S.docs
      ({ d with saved := true, old_slug := none, old_title := none })).find?
      (fun x => x.id == i) =
      some (if (dd.id == d.id) = true then
        ({ d with saved := true, old_slug := none, old_title := none })
        else dd) := by
    rw [findDoc_replaceDoc, hfd2, Option.map_some']
  have hins : (S.docs ++
      [({ d with saved := true, old_slug := none, old_title := none } :
        Document)]).find? (fun x => x.id == i) = some dd :=
    find?_append_some _ hfd2
  by_cases hmem : S.docs.any (fun x => x.id == d.id) = true
  · by_cases hold : (d.old_slug.isSome || d.old_title.isSome) = true
    · simp only [docSaveCommit, hmem, hold, if_true]
      by_cases hdd : (dd.id == d.id)
      · refine Or.inr ⟨by simpa using hdd, ?_⟩
        show (_ ++ [_]).find? _ = _
        apply find?_append_some
        rw [hrepl, if_pos hdd]
      · refine Or.inl ?_
        show (_ ++ [_]).find? _ = _
        apply find?_append_some
        rw [hrepl, if_neg hdd]
    · have hold2 : (d.old_slug.isSome || d.old_title.isSome) = false := by
        simpa using hold
      simp only [docSaveCommit, hmem, hold2, if_true, Bool.false_eq_true,
        if_false]
      by_cases hdd : (dd.id == d.id)
      · refine Or.inr ⟨by simpa using hdd, ?_⟩
        show (replaceDoc _ _).find? _ = _
        rw [hrepl, if_pos hdd]
      · refine Or.inl ?_
        show (replaceDoc _ _).find? _ = _
        rw [hrepl, if_neg hdd]
  · have hmem2 : S.docs.any (fun x => x.id == d.id) = false := by
      simpa using hmem
    by_cases hold : (d.old_slug.isSome || d.old_title.isSome) = true
    · simp only [docSaveCommit, hmem2, hold, Bool.false_eq_true, if_false,
        if_true]
      refine Or.inl ?_
      show ((_ ++ [_]) ++ [_]).find? _ = _
      exact find?_append_some _ hins
    · have hold2 : (d.old_slug.isSome || d.old_title.isSome) = false := by
        simpa using hold
      simp only [docSaveCommit, hmem2, hold2, Bool.false_eq_true, if_false]
      exact Or.inl hins

/-- Saving a new unapproved revision leaves the document table
untouched. -/
theorem newRevision_unapproved_docs (s : WikiState) (did : Nat) (c : String)
    (b : Option Nat) (t : WikiState)
    (hok : newRevision s did c b false = .ok t) : t.docs = s.docs := by
  cases hfd : findDoc s did with
  | none =>
    rw [newRevision, hfd] at hok
    exact Except.noConfusion hok
  | some d0 =>
    rw [newRevision, hfd] at hok
    simp only [] at hok
    rw [revisionSave] at hok
    by_cases hcl : (basedOnIsClean { s with next_id := s.next_id + 1 }
        ⟨s.next_id, did, c, b, false, false, 0⟩).2
    · rw [if_neg (by simp [hcl])] at hok
      by_cases hany : ({ s with next_id := s.next_id + 1 } :
          WikiState).revs.any (fun x => x.id == s.next_id)
      · simp only [hany, if_pos, if_true] at hok
        cases hok
        rfl
      · simp only [hany, Bool.false_eq_true, if_false] at hok
        cases hok
        rfl
    · rw [if_pos (by simp [Bool.not_eq_true] at hcl ⊢; exact hcl)] at hok
      exact Except.noConfusion hok

/-- Rejecting a revision leaves the document table untouched. -/
theorem reviewReject_docs (s : WikiState) (rid sig : Nat) :
    (reviewRevision s rid false sig).docs = s.docs := by
  cases hfr : findRev s rid with
  | none => simp [reviewRevision, hfr]
  | some r => simp [reviewRevision, hfr]

/-- C7: every reachable store satisfies the current-revision soundness
check — each document's `current_revision`, when set, resolves to an
approved revision of that document — and no operation other than an
approval (document creation, document edit/rename, saving an unapproved
revision, rejecting a review) changes any existing document's
`current_revision`. -/
theorem c7_current_revision_invariant (s : WikiState) (h : Reachable s)
    (op : Op) (hop : approvesRevision op = false) (i : Nat) :
    currentRevOkB s = true ∧
    currentPreservedB s (applyOp s op) i = true := by
  obtain ⟨hdl, hrl, hco, hpl⟩ := inv_reachable s h
  refine ⟨currentRevOkB_of s hco, ?_⟩
  cases op with
  | newDoc l sl t par loc =>
    show currentPreservedB s (tryOp (newDocument s l sl t par loc) s) i = true
    cases hok : newDocument s l sl t par loc with
    | error e => exact currentPreservedB_refl s i
    | ok s2 =>
      apply currentPreservedB_of
      intro dd hfd
      unfold newDocument at hok
      have hs2 := documentSave_ok_commit _ _ s2 hok
      subst hs2
      have hfd2 : findDoc ({ s with next_id := s.next_id + 1 } : WikiState) i =
          some dd := hfd
      rcases docSaveCommit_findDoc_some _
        ⟨s.next_id, l, sl, t, par, loc, "", none, false, none, none⟩ i dd hfd2
        with hleft | ⟨hid, hright⟩
      · exact ⟨dd, hleft, rfl⟩
      · exfalso
        have h1 : dd ∈ s.docs := List.mem_of_find?_eq_some hfd
        have := hdl dd h1
        rw [hid] at this
        exact absurd this (by simp)
  | editDoc did nsl ntl loc =>
    show currentPreservedB s (tryOp (editDocument s did nsl ntl loc) s) i = true
    cases hok : editDocument s did nsl ntl loc with
    | error e => exact currentPreservedB_refl s i
    | ok s2 =>
      apply currentPreservedB_of
      intro dd hfd
      unfold editDocument at hok
      cases hfid : findDoc s did with
      | none =>
        rw [hfid] at hok
        exact Except.noConfusion hok
      | some d0 =>
        rw [hfid] at hok
        simp only [] at hok
        have hs2 := documentSave_ok_commit _ _ s2 hok
        subst hs2
        obtain ⟨hsp, hsi, hsc, _⟩ :=
          setSlug_frame ({ d0 with is_localizable := loc }) nsl
        obtain ⟨htp, hti, htc, _⟩ :=
          setTitle_frame (setSlug ({ d0 with is_localizable := loc }) nsl) ntl
        rcases docSaveCommit_findDoc_some s
          (setTitle (setSlug ({ d0 with is_localizable := loc }) nsl) ntl)
          i dd hfd with hleft | ⟨hid, hright⟩
        · exact ⟨dd, hleft, rfl⟩
        · refine ⟨_, hright, ?_⟩
          show (setTitle (setSlug ({ d0 with is_localizable := loc }) nsl)
            ntl).current_revision = dd.current_revision
          have hd0id : d0.id = did := by simpa using List.find?_some hfid
          have hddi : dd.id = i := by simpa using List.find?_some hfd
          have hieq : i = did := by
            rw [← hddi, hid, hti, hsi]
            exact hd0id
          have hdd0 : dd = d0 := by
            rw [hieq] at hfd
            rw [hfd] at hfid
            exact (Option.some.injEq _ _ ▸ hfid)
          rw [htc, hsc, hdd0]
  | newRev did c b app =>
    have happ : app = false := hop
    subst happ
    show currentPreservedB s (tryOp (newRevision s did c b false) s) i = true
    cases hok : newRevision s did c b false with
    | error e => exact currentPreservedB_refl s i
    | ok s2 =>
      apply currentPreservedB_of
      intro dd hfd
      have hdocs := newRevision_unapproved_docs s did c b s2 hok
      refine ⟨dd, ?_, rfl⟩
      unfold findDoc
      show List.find? (fun d => d.id == i) s2.docs = some dd
      rw [hdocs]
      exact hfd
  | review rid app sig =>
    have happ : app = false := hop
    subst happ
    show currentPreservedB s (reviewRevision s rid false sig) i = true
    apply currentPreservedB_of
    intro dd hfd
    refine ⟨dd, ?_, rfl⟩
    unfold findDoc
    rw [reviewReject_docs]
    exact hfd

/-- C7 witness: the checks evaluated on the reachable store holding one
freshly created document, across an unapproved revision save. -/
theorem c7_current_revision_invariant_witness :
    currentRevOkB (applyOp initState (Op.newDoc "en-US" "a" "A" none true)) =
      true ∧
    currentPreservedB (applyOp initState (Op.newDoc "en-US" "a" "A" none true))
      (applyOp (applyOp initState (Op.newDoc "en-US" "a" "A" none true))
        (Op.newRev 0 "c" none false)) 0 = true :=
  c7_current_revision_invariant
    (applyOp initState (Op.newDoc "en-US" "a" "A" none true))
    (Reachable.step (Op.newDoc "en-US" "a" "A" none true) Reachable.init)
    (Op.newRev 0 "c" none false) (by rfl) 0

/-- C10: saving a translation whose parent is not localizable raises a
validation error; saving a document as non-localizable while it has
translation children raises a validation error; and on every reachable
store each parent pointer resolves to a localizable document. -/
theorem c10_localizable_parents (s : WikiState) (h : Reachable s)
    (d2 e : Document) (pid : Nat) (p : Document)
    (hp1 : d2.parent = some pid) (hp2 : findDoc s pid = some p)
    (hp3 : p.is_localizable = false)
    (hc : e.is_localizable = false) (hcc : hasChildren s e.id = true) :
    isErr (documentSave s d2) = true ∧
    isErr (documentSave s e) = true ∧
    parentLocalizableB s = true := by
  obtain ⟨hdl, hrl, hco, hpl⟩ := inv_reachable s h
  refine ⟨?_, ?_, parentLocalizableB_of s hpl⟩
  · have hpar : parentOk s d2 = false := by
      unfold parentOk
      rw [hp1]
      simp only []
      rw [hp2]
      exact hp3
    unfold documentSave
    rw [if_pos (by simp [hpar])]
    rfl
  · unfold documentSave
    by_cases hpe : parentOk s e = true
    · have hche : childrenOk s e = false := by
        unfold childrenOk
        rw [hc, hcc]
        rfl
      rw [if_neg (by simp [hpe]), if_pos (by simp [hche])]
      rfl
    · rw [if_pos (by simp [Bool.not_eq_true] at hpe ⊢; exact hpe)]
      rfl

/-- C10 witness: on a reachable store with a localizable document 0 (with
German child 1) and a non-localizable document 2, attaching a translation
under document 2 fails, and flipping document 0 non-localizable fails. -/
theorem c10_localizable_parents_witness :
    isErr (documentSave (applyOp (applyOp (applyOp initState
      (Op.newDoc "en-US" "a" "A" none true))
      (Op.newDoc "de" "a" "A-de" (some 0) true))
      (Op.newDoc "en-US" "c" "C" none false))
      ⟨9, "de", "x", "X", some 2, true, "", none, false, none, none⟩) = true ∧
    isErr (documentSave (applyOp (applyOp (applyOp initState
      (Op.newDoc "en-US" "a" "A" none true))
      (Op.newDoc "de" "a" "A-de" (some 0) true))
      (Op.newDoc "en-US" "c" "C" none false))
      ⟨0, "en-US", "a", "A", none, false, "", none, true, none, none⟩) = true ∧
    parentLocalizableB (applyOp (applyOp (applyOp initState
      (Op.newDoc "en-US" "a" "A" none true))
      (Op.newDoc "de" "a" "A-de" (some 0) true))
      (Op.newDoc "en-US" "c" "C" none false)) = true :=
  c10_localizable_parents
    (applyOp (applyOp (applyOp initState
      (Op.newDoc "en-US" "a" "A" none true))
      (Op.newDoc "de" "a" "A-de" (some 0) true))
      (Op.newDoc "en-US" "c" "C" none false))
    (Reachable.step (Op.newDoc "en-US" "c" "C" none false)
      (Reachable.step (Op.newDoc "de" "a" "A-de" (some 0) true)
        (Reachable.step (Op.newDoc "en-US" "a" "A" none true) Reachable.init)))
    ⟨9, "de", "x", "X", some 2, true, "", none, false, none, none⟩
    ⟨0, "en-US", "a", "A", none, false, "", none, true, none, none⟩
    2 ⟨2, "en-US", "c", "C", none, false, "", none, true, none, none⟩
    (by rfl) (by rfl) (by rfl) (by rfl) (by rfl)

/-- C1: the `based_on` of the revision created at submit is the value the
edit/translate form pinned at load time — the document's current revision
as of form load — even though another revision of the document is
approved (and becomes current) between load and submit; the concurrently
approved revision does not replace the pinned `based_on`.  `did` is the
English document shown in the form, `tid` the document receiving the new
revision (the same document for an edit, the translation for a
translate). -/
theorem c1_based_on_pinned (s : WikiState) (did tid : Nat) (d td : Document)
    (p : Nat) (pr : Revision) (mc fc : String)
    (hd : findDoc s did = some d)
    (hcur : d.current_revision = some p)
    (htd : findDoc s tid = some td)
    (horig : originalId td = did)
    (hpr : findRev s p = some pr)
    (hprdoc : pr.document = did)
    (hfreshR : ∀ x ∈ s.revs, x.id < s.next_id) :
    editFormBasedOn s did = some p ∧
    isErr (newRevision s did mc none true) = false ∧
    editFormBasedOn (tryOp (newRevision s did mc none true) s) did ≠ some p ∧
    isErr (newRevision (tryOp (newRevision s did mc none true) s) tid fc
      (editFormBasedOn s did) false) = false ∧
    (tryOp (newRevision (tryOp (newRevision s did mc none true) s) tid fc
      (editFormBasedOn s did) false)
      (tryOp (newRevision s did mc none true) s)).revs.getLast?.map
      Revision.based_on = some (some p) := by
  have hd' : s.docs.find? (fun x => x.id == did) = some d := hd
  have hdid : d.id = did := by simpa using List.find?_some hd
  have htdid : td.id = tid := by simpa using List.find?_some htd
  have hp : p < s.next_id := by
    have h1 : pr ∈ s.revs := List.mem_of_find?_eq_some hpr
    have h2 : pr.id = p := by simpa using List.find?_some hpr
    rw [← h2]
    exact hfreshR pr h1
  have hpin : editFormBasedOn s did = some p := by
    simp [editFormBasedOn, hd, hcur]
  have hany : s.revs.any (fun x => x.id == s.next_id) = false := by
    rw [List.any_eq_false]
    intro x hx
    simp only [beq_iff_eq]
    exact Nat.ne_of_lt (hfreshR x hx)
  have hm : newRevision s did mc none true = .ok
      ⟨s.docs.map (fun x => if x.id == did then
          { x with current_revision := some s.next_id,
                   html := wiki_to_html mc } else x),
        s.revs ++ [⟨s.next_id, did, mc, none, true, false, 0⟩],
        s.reviewed_notifications, s.next_id + 1⟩ := by
    unfold newRevision revisionSave basedOnIsClean makeCurrent
    rw [hd]
    simp [hd', hany]
    split <;> rfl
  rw [hpin, hm]
  simp only [tryOp]
  have hidmap : ∀ x : Document, ((if x.id == did then
      { x with current_revision := some s.next_id,
               html := wiki_to_html mc } else x).id == tid) = (x.id == tid) := by
    intro x
    by_cases h : x.id == did <;> simp [h]
  have hidmap2 : ∀ x : Document, ((if x.id == did then
      { x with current_revision := some s.next_id,
               html := wiki_to_html mc } else x).id == did) = (x.id == did) := by
    intro x
    by_cases h : x.id == did <;> simp [h]
  have hfd1 : (s.docs.map (fun x => if x.id == did then
      { x with current_revision := some s.next_id,
               html := wiki_to_html mc } else x)).find? (fun x => x.id == did) =
      some ({ d with current_revision := some s.next_id
                     html := wiki_to_html mc }) := by
    rw [find?_map_pred _ _ _ hidmap2, hd']
    simp [hdid]
  have hfdT : (s.docs.map (fun x => if x.id == did then
      { x with current_revision := some s.next_id,
               html := wiki_to_html mc } else x)).find? (fun x => x.id == tid) =
      some (if td.id == did then
        { td with current_revision := some s.next_id,
                  html := wiki_to_html mc } else td) := by
    rw [find?_map_pred _ _ _ hidmap]
    rw [show s.docs.find? (fun x => x.id == tid) = some td from htd]
    rfl
  have horigg : originalId (if td.id == did then
      { td with current_revision := some s.next_id,
                html := wiki_to_html mc } else td) = did := by
    by_cases h : (td.id == did)
    · rw [if_pos h]
      exact horig
    · rw [if_neg h]
      exact horig
  have hprT : (s.revs ++ [(⟨s.next_id, did, mc, none, true, false, 0⟩ :
      Revision)]).find? (fun x => x.id == p) = some pr :=
    find?_append_some _ hpr
  have hany2 : (s.revs ++ [(⟨s.next_id, did, mc, none, true, false, 0⟩ :
      Revision)]).any (fun x => x.id == s.next_id + 1) = false := by
    rw [List.any_eq_false]
    intro x hx
    simp only [beq_iff_eq]
    rcases List.mem_append.mp hx with h | h
    · exact Nat.ne_of_lt (Nat.lt_trans (hfreshR x h) (Nat.lt_succ_self _))
    · rw [List.mem_singleton.mp h]
      simp
  have hf : newRevision ⟨s.docs.map (fun x => if x.id == did then
        { x with current_revision := some s.next_id,
                 html := wiki_to_html mc } else x),
      s.revs ++ [⟨s.next_id, did, mc, none, true, false, 0⟩],
      s.reviewed_notifications, s.next_id + 1⟩ tid fc (some p) false = .ok
      ⟨s.docs.map (fun x => if x.id == did then
        { x with current_revision := some s.next_id,
                 html := wiki_to_html mc } else x),
      (s.revs ++ [⟨s.next_id, did, mc, none, true, false, 0⟩]) ++
        [⟨s.next_id + 1, tid, fc, some p, false, false, 0⟩],
      s.reviewed_notifications, s.next_id + 1 + 1⟩ :=
    newRevision_unapproved_ok _ tid _ fc p pr hfdT hprT
      (by rw [hprdoc, horigg]) hany2
  have hebo : editFormBasedOn ⟨s.docs.map (fun x => if x.id == did then
      { x with current_revision := some s.next_id,
               html := wiki_to_html mc } else x),
      s.revs ++ [⟨s.next_id, did, mc, none, true, false, 0⟩],
      s.reviewed_notifications, s.next_id + 1⟩ did = some s.next_id := by
    unfold editFormBasedOn
    rw [show findDoc ⟨s.docs.map (fun x => if x.id == did then
      { x with current_revision := some s.next_id,
               html := wiki_to_html mc } else x),
      s.revs ++ [⟨s.next_id, did, mc, none, true, false, 0⟩],
      s.reviewed_notifications, s.next_id + 1⟩ did =
      some ({ d with current_revision := some s.next_id
                     html := wiki_to_html mc }) from hfd1]
  refine ⟨trivial, rfl, ?_, ?_, ?_⟩
  · rw [hebo]
    simp only [ne_eq, Option.some.injEq]
    omega
  · rw [hf]
    rfl
  · rw [hf]
    simp only [tryOp]
    show (((s.revs ++ _) ++ [_]).getLast?).map Revision.based_on = _
    rw [List.getLast?_concat]
    rfl

/-- An English document (id 0) with approved current revision 1 and a
Spanish translation (id 2), used by the pinning witness. -/
def exC1State : WikiState :=
  ⟨[⟨0, "en-US", "s0", "T0", none, true, wiki_to_html "c0", some 1, true,
      none, none⟩,
    ⟨2, "es", "s0", "T0-es", some 0, true, "", none, true, none, none⟩],
   [⟨1, 0, "c0", none, true, true, 0⟩], [], 3⟩

/-- C1 witness: on `exC1State`, the translate form pins `based_on` to
revision 1; a concurrent approval changes the English current revision,
yet the submitted translation's `based_on` is still revision 1. -/
theorem c1_based_on_pinned_witness :
    editFormBasedOn exC1State 0 = some 1 ∧
    isErr (newRevision exC1State 0 "martha" none true) = false ∧
    editFormBasedOn (tryOp (newRevision exC1State 0 "martha" none true)
      exC1State) 0 ≠ some 1 ∧
    isErr (newRevision (tryOp (newRevision exC1State 0 "martha" none true)
      exC1State) 2 "fred" (editFormBasedOn exC1State 0) false) = false ∧
    (tryOp (newRevision (tryOp (newRevision exC1State 0 "martha" none true)
      exC1State) 2 "fred" (editFormBasedOn exC1State 0) false)
      (tryOp (newRevision exC1State 0 "martha" none true)
        exC1State)).revs.getLast?.map Revision.based_on = some (some 1) :=
  c1_based_on_pinned exC1State 0 2
    ⟨0, "en-US", "s0", "T0", none, true, wiki_to_html "c0", some 1, true,
      none, none⟩
    ⟨2, "es", "s0", "T0-es", some 0, true, "", none, true, none, none⟩
    1 ⟨1, 0, "c0", none, true, true, 0⟩ "martha" "fred"
    (by rfl) (by rfl) (by rfl) (by rfl) (by rfl) (by rfl)
    (by simp [exC1State])

/-- C4: approving a revision through the review action marks it reviewed
and approved, makes it the document's current revision, re-renders the
document's cached html so that it contains the approved revision's
content, and enqueues the reviewed notification. -/
theorem c4_approve_review (s : WikiState) (rid sig : Nat) (r : Revision)
    (d : Document) (hr : findRev s rid = some r)
    (hd : findDoc s r.document = some d) :
    (findRev (reviewRevision s rid true sig) rid).map Revision.reviewed =
      some true ∧
    (findRev (reviewRevision s rid true sig) rid).map Revision.is_approved =
      some true ∧
    (findDoc (reviewRevision s rid true sig) r.document).map
      Document.current_revision = some (some rid) ∧
    (findDoc (reviewRevision s rid true sig) r.document).map Document.html =
      some (wiki_to_html r.content) ∧
    r.content.data <:+: (wiki_to_html r.content).data ∧
    rid ∈ (reviewRevision s rid true sig).reviewed_notifications := by
  have hrid : r.id = rid := by simpa using List.find?_some hr
  have hdid : d.id = r.document := by simpa using List.find?_some hd
  have hW : reviewRevision s rid true sig =
      { docs := s.docs.map (fun x => if x.id == r.document then
          { x with current_revision := some r.id,
                   html := wiki_to_html r.content } else x),
        revs := replaceRev s.revs
          { r with reviewed := true, is_approved := true, significance := sig },
        reviewed_notifications := rid :: s.reviewed_notifications,
        next_id := s.next_id } := by
    simp [reviewRevision, hr, makeCurrent]
  have hfr : findRev (reviewRevision s rid true sig) rid =
      some { r with reviewed := true, is_approved := true, significance := sig } := by
    rw [hW]
    show (replaceRev s.revs _).find? _ = _
    rw [find?_replaceRev,
      show s.revs.find? (fun x => x.id == rid) = some r from hr]
    simp
  have hfd : findDoc (reviewRevision s rid true sig) r.document =
      some { d with current_revision := some r.id,
                    html := wiki_to_html r.content } := by
    rw [hW]
    show (s.docs.map _).find? _ = _
    rw [find?_map_pred _ _ _ (fun x => by by_cases h : x.id == r.document <;> simp [h])]
    rw [show s.docs.find? (fun x => x.id == r.document) = some d from hd]
    simp [hdid]
  refine ⟨?_, ?_, ?_, ?_, ?_, ?_⟩
  · rw [hfr]; rfl
  · rw [hfr]; rfl
  · rw [hfd]; simp [hrid]
  · rw [hfd]; rfl
  · exact ⟨"<div id=doc-content>".data, "</div>".data,
      by simp [wiki_to_html, String.data_append]⟩
  · rw [hW]; exact List.mem_cons_self _ _

/-- C4 witness: the approval facts evaluated on a concrete one-document
store with an unreviewed revision 2. -/
theorem c4_approve_review_witness :
    (findRev (reviewRevision ⟨[⟨0, "en-US", "s0", "T0", none, true,
        wiki_to_html "c0", some 1, true, none, none⟩],
        [⟨1, 0, "c0", none, true, true, 0⟩, ⟨2, 0, "c2", none, false, false, 0⟩],
        [], 3⟩ 2 true 1) 2).map Revision.reviewed = some true ∧
    (findRev (reviewRevision ⟨[⟨0, "en-US", "s0", "T0", none, true,
        wiki_to_html "c0", some 1, true, none, none⟩],
        [⟨1, 0, "c0", none, true, true, 0⟩, ⟨2, 0, "c2", none, false, false, 0⟩],
        [], 3⟩ 2 true 1) 2).map Revision.is_approved = some true ∧
    (findDoc (reviewRevision ⟨[⟨0, "en-US", "s0", "T0", none, true,
        wiki_to_html "c0", some 1, true, none, none⟩],
        [⟨1, 0, "c0", none, true, true, 0⟩, ⟨2, 0, "c2", none, false, false, 0⟩],
        [], 3⟩ 2 true 1) (0 : Nat)).map Document.current_revision =
      some (some 2) ∧
    (findDoc (reviewRevision ⟨[⟨0, "en-US", "s0", "T0", none, true,
        wiki_to_html "c0", some 1, true, none, none⟩],
        [⟨1, 0, "c0", none, true, true, 0⟩, ⟨2, 0, "c2", none, false, false, 0⟩],
        [], 3⟩ 2 true 1) (0 : Nat)).map Document.html =
      some (wiki_to_html "c2") ∧
    ("c2" : String).data <:+: (wiki_to_html "c2").data ∧
    2 ∈ (reviewRevision ⟨[⟨0, "en-US", "s0", "T0", none, true,
        wiki_to_html "c0", some 1, true, none, none⟩],
        [⟨1, 0, "c0", none, true, true, 0⟩, ⟨2, 0, "c2", none, false, false, 0⟩],
        [], 3⟩ 2 true 1).reviewed_notifications :=
  c4_approve_review ⟨[⟨0, "en-US", "s0", "T0", none, true,
      wiki_to_html "c0", some 1, true, none, none⟩],
      [⟨1, 0, "c0", none, true, true, 0⟩, ⟨2, 0, "c2", none, false, false, 0⟩],
      [], 3⟩ 2 1 ⟨2, 0, "c2", none, false, false, 0⟩
    ⟨0, "en-US", "s0", "T0", none, true, wiki_to_html "c0", some 1, true,
      none, none⟩ (by rfl) (by rfl)

/-- C5: rejecting a revision through the review action marks it reviewed
but not approved and leaves every document row (hence current_revision
and cached html) unchanged; saving a new unapproved revision likewise
leaves the document rows unchanged. -/
theorem c5_reject_review (s : WikiState) (rid sig : Nat) (r : Revision)
    (hr : findRev s rid = some r) (hna : r.is_approved = false)
    (s2 : WikiState) (did : Nat) (c : String) (b : Option Nat)
    (t : WikiState) (hok2 : newRevision s2 did c b false = Except.ok t) :
    (findRev (reviewRevision s rid false sig) rid).map Revision.reviewed =
      some true ∧
    (findRev (reviewRevision s rid false sig) rid).map Revision.is_approved =
      some false ∧
    (reviewRevision s rid false sig).docs = s.docs ∧
    t.docs = s2.docs := by
  have hW : reviewRevision s rid false sig =
      { docs := s.docs,
        revs := replaceRev s.revs { r with reviewed := true },
        reviewed_notifications := rid :: s.reviewed_notifications,
        next_id := s.next_id } := by
    simp [reviewRevision, hr]
  have hfr : findRev (reviewRevision s rid false sig) rid =
      some { r with reviewed := true } := by
    rw [hW]
    show (replaceRev s.revs _).find? _ = _
    rw [find?_replaceRev,
      show s.revs.find? (fun x => x.id == rid) = some r from hr]
    simp
  refine ⟨?_, ?_, ?_, ?_⟩
  · rw [hfr]; rfl
  · rw [hfr]; simp [hna]
  · rw [hW]
  · cases hfd : findDoc s2 did with
    | none => simp [newRevision, hfd] at hok2
    | some d0 =>
      rw [newRevision] at hok2
      rw [hfd] at hok2
      simp only [] at hok2
      rw [revisionSave] at hok2
      by_cases hcl : (basedOnIsClean { s2 with next_id := s2.next_id + 1 }
          ⟨s2.next_id, did, c, b, false, false, 0⟩).2
      · rw [if_neg (by simp [hcl])] at hok2
        by_cases hany : ({ s2 with next_id := s2.next_id + 1 } :
            WikiState).revs.any (fun x => x.id == s2.next_id)
        · simp only [hany, if_pos, if_true] at hok2
          cases hok2
          rfl
        · simp only [hany, if_neg, Bool.false_eq_true, if_false] at hok2
          cases hok2
          rfl
      · rw [if_pos (by simp [hcl])] at hok2
        cases hok2

/-- C5 witness: the rejection facts evaluated on the same concrete store,
plus an unapproved edit-form save. -/
theorem c5_reject_review_witness :
    (findRev (reviewRevision ⟨[⟨0, "en-US", "s0", "T0", none, true,
        wiki_to_html "c0", some 1, true, none, none⟩],
        [⟨1, 0, "c0", none, true, true, 0⟩, ⟨2, 0, "c2", none, false, false, 0⟩],
        [], 3⟩ 2 false 0) 2).map Revision.reviewed = some true ∧
    (findRev (reviewRevision ⟨[⟨0, "en-US", "s0", "T0", none, true,
        wiki_to_html "c0", some 1, true, none, none⟩],
        [⟨1, 0, "c0", none, true, true, 0⟩, ⟨2, 0, "c2", none, false, false, 0⟩],
        [], 3⟩ 2 false 0) 2).map Revision.is_approved = some false ∧
    (reviewRevision ⟨[⟨0, "en-US", "s0", "T0", none, true,
        wiki_to_html "c0", some 1, true, none, none⟩],
        [⟨1, 0, "c0", none, true, true, 0⟩, ⟨2, 0, "c2", none, false, false, 0⟩],
        [], 3⟩ 2 false 0).docs = ([⟨0, "en-US", "s0", "T0", none, true,
        wiki_to_html "c0", some 1, true, none, none⟩] : List Document) ∧
    (tryOp (newRevision ⟨[⟨0, "en-US", "s0", "T0", none, true,
        wiki_to_html "c0", some 1, true, none, none⟩],
        [⟨1, 0, "c0", none, true, true, 0⟩, ⟨2, 0, "c2", none, false, false, 0⟩],
        [], 3⟩ 0 "c3" none false) initState).docs =
      ([⟨0, "en-US", "s0", "T0", none, true,
        wiki_to_html "c0", some 1, true, none, none⟩] : List Document) :=
  c5_reject_review ⟨[⟨0, "en-US", "s0", "T0", none, true,
      wiki_to_html "c0", some 1, true, none, none⟩],
      [⟨1, 0, "c0", none, true, true, 0⟩, ⟨2, 0, "c2", none, false, false, 0⟩],
      [], 3⟩ 2 0 ⟨2, 0, "c2", none, false, false, 0⟩ (by rfl) (by rfl)
    ⟨[⟨0, "en-US", "s0", "T0", none, true,
      wiki_to_html "c0", some 1, true, none, none⟩],
      [⟨1, 0, "c0", none, true, true, 0⟩, ⟨2, 0, "c2", none, false, false, 0⟩],
      [], 3⟩ 0 "c3" none
    (tryOp (newRevision ⟨[⟨0, "en-US", "s0", "T0", none, true,
      wiki_to_html "c0", some 1, true, none, none⟩],
      [⟨1, 0, "c0", none, true, true, 0⟩, ⟨2, 0, "c2", none, false, false, 0⟩],
      [], 3⟩ 0 "c3" none false) initState) (by rfl)

/-- Core computation shared by the rename claims: saving a pre-existing
document that carries a remembered old slug or old title succeeds,
appends exactly one redirect document (whose generated identifiers come
from `attrForRedirectSlug`/`attrForRedirectTitle` over the post-update
table), and the redirect's current revision holds the redirect notice for
the document's (new) title. -/
theorem documentSave_rename (s : WikiState) (d2 : Document)
    (hmem : s.docs.any (fun x => x.id == d2.id) = true)
    (hpar : parentOk s d2 = true) (hch : childrenOk s d2 = true)
    (hold : (d2.old_slug.isSome || d2.old_title.isSome) = true)
    (hfresh : ∀ x ∈ s.revs, x.id < s.next_id) :
    isErr (documentSave s d2) = false ∧
    (tryOp (documentSave s d2) s).docs.length = s.docs.length + 1 ∧
    (tryOp (documentSave s d2) s).docs.getLast? = some
      { id := s.next_id, locale := d2.locale
        slug := attrForRedirectSlug
          (replaceDoc s.docs ({ d2 with saved := true, old_slug := none, old_title := none })) d2
        title := attrForRedirectTitle
          (replaceDoc s.docs ({ d2 with saved := true, old_slug := none, old_title := none })) d2
        parent := none, is_localizable := false
        html := wiki_to_html (REDIRECT_CONTENT d2.title)
        current_revision := some (s.next_id + 1), saved := true
        old_slug := none, old_title := none } ∧
    (findRev (tryOp (documentSave s d2) s) (s.next_id + 1)).map
      Revision.content = some (REDIRECT_CONTENT d2.title) := by
  have hsave : documentSave s d2 = .ok (makeRedirect
      ⟨replaceDoc s.docs ({ d2 with saved := true, old_slug := none, old_title := none }),
       s.revs, s.reviewed_notifications, s.next_id⟩ d2) := by
    unfold documentSave docSaveCommit
    simp [hpar, hch, hmem, hold]
  rw [hsave]
  refine ⟨rfl, ?_, ?_, ?_⟩
  · show (replaceDoc s.docs _ ++ [_]).length = _
    simp [replaceDoc]
  · show (replaceDoc s.docs _ ++ [_]).getLast? = _
    rw [List.getLast?_concat]
  · show ((s.revs ++ [_]).find? _).map Revision.content = _
    rw [List.find?_append, find?_id_none s.revs (fun x => x.id)
      (s.next_id + 1) (fun x hx => Nat.lt_trans (hfresh x hx) (Nat.lt_succ_self _))]
    simp

/-- C2: saving a previously saved document under a changed slug, title or
both creates exactly one new redirect document, sitting at the old slug
(when the slug changed) and the old title (when the title changed), whose
current revision's content is the redirect notice pointing at the new
title; saving a never-before-saved document creates no redirect (and no
revision) even when its title was changed after construction. -/
theorem c2_rename_redirect (s : WikiState) (did : Nat) (d0 : Document)
    (newSlug newTitle : String) (loc : Bool)
    (hfd : findDoc s did = some d0)
    (hsaved : d0.saved = true) (hos : d0.old_slug = none)
    (hot : d0.old_title = none)
    (hchange : newSlug ≠ d0.slug ∨ newTitle ≠ d0.title)
    (hpar : parentOk s d0 = true)
    (hch : (loc || !(hasChildren s d0.id)) = true)
    (hfresh : ∀ x ∈ s.revs, x.id < s.next_id)
    (s2 : WikiState) (locale2 slug2 title2 newTitle2 : String)
    (hfreshd2 : ∀ x ∈ s2.docs, x.id < s2.next_id) :
    isErr (editDocument s did newSlug newTitle loc) = false ∧
    (tryOp (editDocument s did newSlug newTitle loc) s).docs.length =
      s.docs.length + 1 ∧
    (newSlug ≠ d0.slug →
      (tryOp (editDocument s did newSlug newTitle loc) s).docs.getLast?.map
        Document.slug = some d0.slug) ∧
    (newTitle ≠ d0.title →
      (tryOp (editDocument s did newSlug newTitle loc) s).docs.getLast?.map
        Document.title = some d0.title) ∧
    (tryOp (editDocument s did newSlug newTitle loc) s).docs.getLast?.map
      Document.current_revision = some (some (s.next_id + 1)) ∧
    (findRev (tryOp (editDocument s did newSlug newTitle loc) s)
      (s.next_id + 1)).map Revision.content =
      some (REDIRECT_CONTENT newTitle) ∧
    isErr (constructChangeSave s2 locale2 slug2 title2 newTitle2) = false ∧
    (tryOp (constructChangeSave s2 locale2 slug2 title2 newTitle2) s2).docs.length =
      s2.docs.length + 1 ∧
    (tryOp (constructChangeSave s2 locale2 slug2 title2 newTitle2) s2).docs.getLast?.map
      Document.title = some newTitle2 ∧
    (tryOp (constructChangeSave s2 locale2 slug2 title2 newTitle2) s2).revs =
      s2.revs := by
  have hd0mem : d0 ∈ s.docs := List.mem_of_find?_eq_some hfd
  have hd0id : d0.id = did := by simpa using List.find?_some hfd
  -- the edited record fed to Document.save():
  have hmem : ∀ e : Document, e.id = d0.id →
      s.docs.any (fun x => x.id == e.id) = true := by
    intro e he
    rw [List.any_eq_true]
    exact ⟨d0, hd0mem, by simp [he]⟩
  have hmain : ∀ d2 : Document, d2.id = d0.id → d2.parent = d0.parent →
      d2.is_localizable = loc →
      (d2.old_slug.isSome || d2.old_title.isSome) = true →
      isErr (documentSave s d2) = false ∧
      (tryOp (documentSave s d2) s).docs.length = s.docs.length + 1 ∧
      (tryOp (documentSave s d2) s).docs.getLast? = some
        { id := s.next_id, locale := d2.locale
          slug := attrForRedirectSlug
            (replaceDoc s.docs ({ d2 with saved := true, old_slug := none, old_title := none })) d2
          title := attrForRedirectTitle
            (replaceDoc s.docs ({ d2 with saved := true, old_slug := none, old_title := none })) d2
          parent := none, is_localizable := false
          html := wiki_to_html (REDIRECT_CONTENT d2.title)
          current_revision := some (s.next_id + 1), saved := true
          old_slug := none, old_title := none } ∧
      (findRev (tryOp (documentSave s d2) s) (s.next_id + 1)).map
        Revision.content = some (REDIRECT_CONTENT d2.title) := by
    intro d2 h1 h2 h3 h4
    apply documentSave_rename s d2 (hmem d2 h1)
    · unfold parentOk at hpar ⊢
      rw [h2]
      exact hpar
    · unfold childrenOk
      rw [h3, h1]
      exact hch
    · exact h4
    · exact hfresh
  have hB1 : constructChangeSave s2 locale2 slug2 title2 newTitle2 =
      .ok ⟨s2.docs ++ [⟨s2.next_id, locale2, slug2, newTitle2, none, true, "",
        none, true, none, none⟩], s2.revs, s2.reviewed_notifications,
        s2.next_id + 1⟩ := by
    have hany : s2.docs.any (fun x => x.id == s2.next_id) = false := by
      rw [List.any_eq_false]
      intro x hx
      simp only [beq_iff_eq]
      exact Nat.ne_of_lt (hfreshd2 x hx)
    unfold constructChangeSave documentSave docSaveCommit
    simp [setTitle, parentOk, childrenOk, hany]
  have hB : isErr (constructChangeSave s2 locale2 slug2 title2 newTitle2) = false ∧
      (tryOp (constructChangeSave s2 locale2 slug2 title2 newTitle2) s2).docs.length =
        s2.docs.length + 1 ∧
      (tryOp (constructChangeSave s2 locale2 slug2 title2 newTitle2) s2).docs.getLast?.map
        Document.title = some newTitle2 ∧
      (tryOp (constructChangeSave s2 locale2 slug2 title2 newTitle2) s2).revs =
        s2.revs := by
    rw [hB1]
    refine ⟨rfl, by simp [tryOp], ?_, rfl⟩
    show (s2.docs ++ [_]).getLast?.map Document.title = _
    rw [List.getLast?_concat]
    rfl
  have hA : isErr (editDocument s did newSlug newTitle loc) = false ∧
      (tryOp (editDocument s did newSlug newTitle loc) s).docs.length =
        s.docs.length + 1 ∧
      (newSlug ≠ d0.slug →
        (tryOp (editDocument s did newSlug newTitle loc) s).docs.getLast?.map
          Document.slug = some d0.slug) ∧
      (newTitle ≠ d0.title →
        (tryOp (editDocument s did newSlug newTitle loc) s).docs.getLast?.map
          Document.title = some d0.title) ∧
      (tryOp (editDocument s did newSlug newTitle loc) s).docs.getLast?.map
        Document.current_revision = some (some (s.next_id + 1)) ∧
      (findRev (tryOp (editDocument s did newSlug newTitle loc) s)
        (s.next_id + 1)).map Revision.content =
        some (REDIRECT_CONTENT newTitle) := by
    by_cases hs : newSlug = d0.slug
    · have ht : newTitle ≠ d0.title := by
        rcases hchange with h | h
        · exact absurd hs h
        · exact h
      have hd2 : setTitle (setSlug ({ d0 with is_localizable := loc }) newSlug)
          newTitle =
          { d0 with is_localizable := loc, title := newTitle
                    old_title := some d0.title } := by
        simp [setSlug, setTitle, hsaved, hos, hot, hs, ht]
      have hedit : editDocument s did newSlug newTitle loc = documentSave s
          ({ d0 with is_localizable := loc, title := newTitle
                     old_title := some d0.title }) := by
        unfold editDocument
        rw [hfd]
        simp only []
        rw [hd2]
      obtain ⟨m1, m2, m3, m4⟩ := hmain
        ({ d0 with is_localizable := loc, title := newTitle
                   old_title := some d0.title }) rfl rfl rfl (by simp [hos])
      refine ⟨by rw [hedit]; exact m1, by rw [hedit]; exact m2,
        fun h => absurd hs h, fun _ => ?_, by rw [hedit, m3]; rfl,
        by rw [hedit]; exact m4⟩
      rw [hedit, m3]
      simp [attrForRedirectTitle]
    · by_cases ht : newTitle = d0.title
      · have hd2 : setTitle (setSlug ({ d0 with is_localizable := loc }) newSlug)
            newTitle =
            { d0 with is_localizable := loc, slug := newSlug
                      old_slug := some d0.slug } := by
          simp [setSlug, setTitle, hsaved, hos, hot, hs, ht]
        have hedit : editDocument s did newSlug newTitle loc = documentSave s
            ({ d0 with is_localizable := loc, slug := newSlug
                       old_slug := some d0.slug }) := by
          unfold editDocument
          rw [hfd]
          simp only []
          rw [hd2]
        obtain ⟨m1, m2, m3, m4⟩ := hmain
          ({ d0 with is_localizable := loc, slug := newSlug
                     old_slug := some d0.slug }) rfl rfl rfl (by simp)
        refine ⟨by rw [hedit]; exact m1, by rw [hedit]; exact m2,
          fun _ => ?_, fun h => absurd ht h, by rw [hedit, m3]; rfl, ?_⟩
        · rw [hedit, m3]
          simp [attrForRedirectSlug]
        · rw [hedit, ht]
          exact m4
      · have hd2 : setTitle (setSlug ({ d0 with is_localizable := loc }) newSlug)
            newTitle =
            { d0 with is_localizable := loc, slug := newSlug
                      old_slug := some d0.slug, title := newTitle
                      old_title := some d0.title } := by
          simp [setSlug, setTitle, hsaved, hos, hot, hs, ht]
        have hedit : editDocument s did newSlug newTitle loc = documentSave s
            ({ d0 with is_localizable := loc, slug := newSlug
                       old_slug := some d0.slug, title := newTitle
                       old_title := some d0.title }) := by
          unfold editDocument
          rw [hfd]
          simp only []
          rw [hd2]
        obtain ⟨m1, m2, m3, m4⟩ := hmain
          ({ d0 with is_localizable := loc, slug := newSlug
                     old_slug := some d0.slug, title := newTitle
                     old_title := some d0.title }) rfl rfl rfl (by simp)
        refine ⟨by rw [hedit]; exact m1, by rw [hedit]; exact m2,
          fun _ => ?_, fun _ => ?_, by rw [hedit, m3]; rfl,
          by rw [hedit]; exact m4⟩
        · rw [hedit, m3]
          simp [attrForRedirectSlug]
        · rw [hedit, m3]
          simp [attrForRedirectTitle]
  exact ⟨hA.1, hA.2.1, hA.2.2.1, hA.2.2.2.1, hA.2.2.2.2.1, hA.2.2.2.2.2,
    hB.1, hB.2.1, hB.2.2.1, hB.2.2.2⟩

/-- A concrete saved one-document store used by the rename witnesses. -/
def exRenameState : WikiState :=
  ⟨[⟨0, "en-US", "s0", "T0", none, true, "h", none, true, none, none⟩],
   [], [], 1⟩

/-- C2 witness: renaming the saved document of `exRenameState` (both slug
and title change) creates exactly one redirect at the old slug and title
holding the redirect notice, while a construct-then-rename first save
creates no redirect and no revision. -/
theorem c2_rename_redirect_witness :
    isErr (editDocument exRenameState 0 "new-slug" "New Title" true) = false ∧
    (tryOp (editDocument exRenameState 0 "new-slug" "New Title" true)
      exRenameState).docs.length = 2 ∧
    ("new-slug" ≠ "s0" →
      (tryOp (editDocument exRenameState 0 "new-slug" "New Title" true)
        exRenameState).docs.getLast?.map Document.slug = some "s0") ∧
    ("New Title" ≠ "T0" →
      (tryOp (editDocument exRenameState 0 "new-slug" "New Title" true)
        exRenameState).docs.getLast?.map Document.title = some "T0") ∧
    (tryOp (editDocument exRenameState 0 "new-slug" "New Title" true)
      exRenameState).docs.getLast?.map Document.current_revision =
      some (some 2) ∧
    (findRev (tryOp (editDocument exRenameState 0 "new-slug" "New Title" true)
      exRenameState) 2).map Revision.content =
      some (REDIRECT_CONTENT "New Title") ∧
    isErr (constructChangeSave initState "en-US" "gerbil" "Gerbil" "Weasel") =
      false ∧
    (tryOp (constructChangeSave initState "en-US" "gerbil" "Gerbil" "Weasel")
      initState).docs.length = 1 ∧
    (tryOp (constructChangeSave initState "en-US" "gerbil" "Gerbil" "Weasel")
      initState).docs.getLast?.map Document.title = some "Weasel" ∧
    (tryOp (constructChangeSave initState "en-US" "gerbil" "Gerbil" "Weasel")
      initState).revs = ([] : List Revision) :=
  c2_rename_redirect exRenameState 0
    ⟨0, "en-US", "s0", "T0", none, true, "h", none, true, none, none⟩
    "new-slug" "New Title" true (by rfl) (by rfl) (by rfl) (by rfl)
    (Or.inl (by decide)) (by rfl) (by rfl) (by simp [exRenameState])
    initState "en-US" "gerbil" "Gerbil" "Weasel" (by simp [initState])

theorem any_congr_mem {α : Type} (l : List α) (p q : α → Bool)
    (h : ∀ x ∈ l, p x = q x) : l.any p = l.any q := by
  induction l with
  | nil => rfl
  | cons x xs ih =>
    simp only [List.any_cons]
    rw [h x (List.mem_cons_self x xs),
      ih (fun y hy => h y (List.mem_cons_of_mem x hy))]

/-- Replacing the renamed document in the table does not change any
name-collision test, provided its id is unique in the table and the
tested attributes are untouched by the replacement. -/
theorem any_replaceDoc (docs : List Document) (d0 dn : Document)
    (hid : dn.id = d0.id) (huniq : ∀ x ∈ docs, x.id = d0.id → x = d0)
    (p : Document → Bool) (hp : p dn = p d0) :
    (replaceDoc docs dn).any p = docs.any p := by
  unfold replaceDoc
  rw [List.any_map]
  apply any_congr_mem
  intro x hx
  by_cases h : (x.id == dn.id)
  · have hx0 : x = d0 := huniq x hx (by rw [← hid]; exact beq_iff_eq.mp h)
    simp only [Function.comp_apply, if_pos h]
    rw [hp, hx0]
  · simp only [Function.comp_apply, if_neg h]

/-- Two steps of the collision-avoidance loop: when the first generated
name is taken and the second is free, the loop returns the second. -/
theorem uniqueAttrGo_two (taken : String → Bool) (mk : Nat → String) (k : Nat)
    (h1 : taken (mk 1) = true) (h2 : taken (mk 2) = false) :
    uniqueAttrGo taken mk (k + 2) 1 = mk 2 := by
  show uniqueAttrGo taken mk (k + 1 + 1) 1 = mk 2
  rw [uniqueAttrGo, if_pos h1, uniqueAttrGo, if_neg (by simp [h2])]

/-- The generated redirect title under a single collision at number 1. -/
theorem attrForRedirectTitle_collision (docs : List Document) (d : Document)
    (hot2 : d.old_title = none)
    (h1 : titleTaken docs d.locale (REDIRECT_TITLE d.title 1) = true)
    (h2 : titleTaken docs d.locale (REDIRECT_TITLE d.title 2) = false) :
    attrForRedirectTitle docs d = REDIRECT_TITLE d.title 2 := by
  unfold attrForRedirectTitle
  rw [hot2]
  have hne : docs.length ≠ 0 := by
    intro h0
    rw [List.length_eq_zero.mp h0] at h1
    simp [titleTaken] at h1
  have hlen : docs.length + 1 = (docs.length - 1) + 2 := by omega
  rw [hlen]
  exact uniqueAttrGo_two _ _ _ h1 h2

/-- The generated redirect slug under a single collision at number 1. -/
theorem attrForRedirectSlug_collision (docs : List Document) (d : Document)
    (hos2 : d.old_slug = none)
    (h1 : slugTaken docs d.locale (REDIRECT_SLUG d.slug 1) = true)
    (h2 : slugTaken docs d.locale (REDIRECT_SLUG d.slug 2) = false) :
    attrForRedirectSlug docs d = REDIRECT_SLUG d.slug 2 := by
  unfold attrForRedirectSlug
  rw [hos2]
  have hne : docs.length ≠ 0 := by
    intro h0
    rw [List.length_eq_zero.mp h0] at h1
    simp [slugTaken] at h1
  have hlen : docs.length + 1 = (docs.length - 1) + 2 := by omega
  rw [hlen]
  exact uniqueAttrGo_two _ _ _ h1 h2

/-- C3: when a rename must generate the redirect's title (slug-only
rename) and the `'<title> Redirect 1'` name is already held by a document
of the locale while `'<title> Redirect 2'` is free, the redirect gets
number 2; symmetrically for generated slugs on title-only renames. -/
theorem c3_redirect_collision (s : WikiState) (did : Nat) (d0 : Document)
    (newSlug : String) (loc : Bool)
    (hfd : findDoc s did = some d0)
    (hsaved : d0.saved = true) (hos : d0.old_slug = none)
    (hot : d0.old_title = none)
    (hs : newSlug ≠ d0.slug)
    (hpar : parentOk s d0 = true)
    (hch : (loc || !(hasChildren s d0.id)) = true)
    (hfresh : ∀ x ∈ s.revs, x.id < s.next_id)
    (huniq : ∀ x ∈ s.docs, x.id = d0.id → x = d0)
    (ht1 : titleTaken s.docs d0.locale (REDIRECT_TITLE d0.title 1) = true)
    (ht2 : titleTaken s.docs d0.locale (REDIRECT_TITLE d0.title 2) = false)
    (sB : WikiState) (didB : Nat) (d0B : Document) (newTitleB : String)
    (locB : Bool)
    (hfdB : findDoc sB didB = some d0B)
    (hsavedB : d0B.saved = true) (hosB : d0B.old_slug = none)
    (hotB : d0B.old_title = none)
    (htB : newTitleB ≠ d0B.title)
    (hparB : parentOk sB d0B = true)
    (hchB : (locB || !(hasChildren sB d0B.id)) = true)
    (hfreshB : ∀ x ∈ sB.revs, x.id < sB.next_id)
    (huniqB : ∀ x ∈ sB.docs, x.id = d0B.id → x = d0B)
    (hs1 : slugTaken sB.docs d0B.locale (REDIRECT_SLUG d0B.slug 1) = true)
    (hs2 : slugTaken sB.docs d0B.locale (REDIRECT_SLUG d0B.slug 2) = false) :
    (tryOp (editDocument s did newSlug d0.title loc) s).docs.getLast?.map
      Document.title = some (REDIRECT_TITLE d0.title 2) ∧
    (tryOp (editDocument sB didB d0B.slug newTitleB locB) sB).docs.getLast?.map
      Document.slug = some (REDIRECT_SLUG d0B.slug 2) := by
  constructor
  · have hd0mem : d0 ∈ s.docs := List.mem_of_find?_eq_some hfd
    have hd2 : setTitle (setSlug ({ d0 with is_localizable := loc }) newSlug)
        d0.title =
        { d0 with is_localizable := loc, slug := newSlug
                  old_slug := some d0.slug } := by
      simp [setSlug, setTitle, hsaved, hos, hot, hs]
    have hedit : editDocument s did newSlug d0.title loc = documentSave s
        ({ d0 with is_localizable := loc, slug := newSlug
                   old_slug := some d0.slug }) := by
      unfold editDocument
      rw [hfd]
      simp only []
      rw [hd2]
    obtain ⟨m1, m2, m3, m4⟩ := documentSave_rename s
      ({ d0 with is_localizable := loc, slug := newSlug
                 old_slug := some d0.slug })
      (List.any_eq_true.mpr ⟨d0, hd0mem, by simp⟩)
      (by unfold parentOk at hpar ⊢; exact hpar)
      (by unfold childrenOk; exact hch) (by simp) hfresh
    rw [hedit, m3]
    show some (attrForRedirectTitle _ _) = some (REDIRECT_TITLE d0.title 2)
    refine congrArg some ?_
    apply attrForRedirectTitle_collision
    · exact hot
    · show titleTaken _ d0.locale (REDIRECT_TITLE d0.title 1) = true
      unfold titleTaken
      rw [any_replaceDoc s.docs d0 _ (by rfl) huniq _ (by rfl)]
      exact ht1
    · show titleTaken _ d0.locale (REDIRECT_TITLE d0.title 2) = false
      unfold titleTaken
      rw [any_replaceDoc s.docs d0 _ (by rfl) huniq _ (by rfl)]
      exact ht2
  · have hd0memB : d0B ∈ sB.docs := List.mem_of_find?_eq_some hfdB
    have hd2B : setTitle (setSlug ({ d0B with is_localizable := locB })
        d0B.slug) newTitleB =
        { d0B with is_localizable := locB, title := newTitleB
                   old_title := some d0B.title } := by
      simp [setSlug, setTitle, hsavedB, hosB, hotB, htB]
    have heditB : editDocument sB didB d0B.slug newTitleB locB = documentSave sB
        ({ d0B with is_localizable := locB, title := newTitleB
                    old_title := some d0B.title }) := by
      unfold editDocument
      rw [hfdB]
      simp only []
      rw [hd2B]
    obtain ⟨m1, m2, m3, m4⟩ := documentSave_rename sB
      ({ d0B with is_localizable := locB, title := newTitleB
                  old_title := some d0B.title })
      (List.any_eq_true.mpr ⟨d0B, hd0memB, by simp⟩)
      (by unfold parentOk at hparB ⊢; exact hparB)
      (by unfold childrenOk; exact hchB) (by simp [hosB]) hfreshB
    rw [heditB, m3]
    show some (attrForRedirectSlug _ _) = some (REDIRECT_SLUG d0B.slug 2)
    refine congrArg some ?_
    apply attrForRedirectSlug_collision
    · exact hosB
    · show slugTaken _ d0B.locale (REDIRECT_SLUG d0B.slug 1) = true
      unfold slugTaken
      rw [any_replaceDoc sB.docs d0B _ (by rfl) huniqB _ (by rfl)]
      exact hs1
    · show slugTaken _ d0B.locale (REDIRECT_SLUG d0B.slug 2) = false
      unfold slugTaken
      rw [any_replaceDoc sB.docs d0B _ (by rfl) huniqB _ (by rfl)]
      exact hs2

/-- A store where the generated redirect title `'T0 Redirect 1'` is
already taken by another document of the locale. -/
def exCollisionTitleState : WikiState :=
  ⟨[⟨0, "en-US", "s0", "T0", none, true, "h", none, true, none, none⟩,
    ⟨1, "en-US", "other-slug", "T0 Redirect 1", none, true, "h", none, true,
      none, none⟩], [], [], 2⟩

/-- A store where the generated redirect slug `'s0-redirect-1'` is already
taken by another document of the locale. -/
def exCollisionSlugState : WikiState :=
  ⟨[⟨0, "en-US", "s0", "T0", none, true, "h", none, true, none, none⟩,
    ⟨1, "en-US", "s0-redirect-1", "Other", none, true, "h", none, true,
      none, none⟩], [], [], 2⟩

/-- C3 witness: on the concrete collision stores the slug-only rename
produces a redirect titled `'T0 Redirect 2'` and the title-only rename a
redirect slugged `'s0-redirect-2'`. -/
theorem c3_redirect_collision_witness :
    (tryOp (editDocument exCollisionTitleState 0 "new-slug" "T0" true)
      exCollisionTitleState).docs.getLast?.map Document.title =
      some (REDIRECT_TITLE "T0" 2) ∧
    (tryOp (editDocument exCollisionSlugState 0 "s0" "New Title" true)
      exCollisionSlugState).docs.getLast?.map Document.slug =
      some (REDIRECT_SLUG "s0" 2) :=
  c3_redirect_collision exCollisionTitleState 0
    ⟨0, "en-US", "s0", "T0", none, true, "h", none, true, none, none⟩
    "new-slug" true (by rfl) (by rfl) (by rfl) (by rfl) (by decide)
    (by rfl) (by rfl) (by simp [exCollisionTitleState]) (by decide)
    (by decide) (by decide)
    exCollisionSlugState 0
    ⟨0, "en-US", "s0", "T0", none, true, "h", none, true, none, none⟩
    "New Title" true (by rfl) (by rfl) (by rfl) (by rfl) (by decide)
    (by rfl) (by rfl) (by simp [exCollisionSlugState]) (by decide)
    (by decide) (by decide)

/-- C6: a revision whose `based_on` references a revision that does not
belong to the document's English original cannot be saved
(`ProgrammingError`), and `clean()` raises a ValidationError while
correcting `based_on` to the English original's current revision — which
is `none` exactly when the document has no English original with a
current revision (`originalCurrentRev`). -/
theorem c6_bad_based_on (s : WikiState) (r : Revision) (d : Document)
    (b : Nat) (br : Revision)
    (hd : findDoc s r.document = some d)
    (hb : r.based_on = some b)
    (hbr : findRev s b = some br)
    (hbad : (br.document == originalId d) = false) :
    isErr (revisionSave s r) = true ∧
    (revisionClean s r).2 = true ∧
    (revisionClean s r).1.based_on = originalCurrentRev s d := by
  have hclean : basedOnIsClean s r = (originalCurrentRev s d, false) := by
    simp [basedOnIsClean, hd, hb, hbr, hbad]
  refine ⟨?_, ?_, ?_⟩
  · unfold revisionSave
    rw [hclean]
    rfl
  · unfold revisionClean
    rw [hclean]
    rfl
  · unfold revisionClean
    rw [hclean]
    rfl

/-- C6 witness: the save error and the two correction cases evaluated on a
concrete store — a German translation whose `based_on` points at an
unrelated document's revision is corrected to the English parent's
current revision, and an English document with no current revision is
corrected to `none`. -/
theorem c6_bad_based_on_witness :
    isErr (revisionSave ⟨[⟨0, "en-US", "s0", "T0", none, true, "h", some 1,
        true, none, none⟩,
      ⟨2, "de", "s0", "T0", some 0, true, "", none, true, none, none⟩,
      ⟨3, "en-US", "other", "Other", none, true, "", none, true, none, none⟩],
      [⟨1, 0, "c0", none, true, true, 0⟩, ⟨4, 3, "c4", none, false, false, 0⟩],
      [], 5⟩ ⟨5, 2, "x", some 4, false, false, 0⟩) = true ∧
    (revisionClean ⟨[⟨0, "en-US", "s0", "T0", none, true, "h", some 1,
        true, none, none⟩,
      ⟨2, "de", "s0", "T0", some 0, true, "", none, true, none, none⟩,
      ⟨3, "en-US", "other", "Other", none, true, "", none, true, none, none⟩],
      [⟨1, 0, "c0", none, true, true, 0⟩, ⟨4, 3, "c4", none, false, false, 0⟩],
      [], 5⟩ ⟨5, 2, "x", some 4, false, false, 0⟩).2 = true ∧
    (revisionClean ⟨[⟨0, "en-US", "s0", "T0", none, true, "h", some 1,
        true, none, none⟩,
      ⟨2, "de", "s0", "T0", some 0, true, "", none, true, none, none⟩,
      ⟨3, "en-US", "other", "Other", none, true, "", none, true, none, none⟩],
      [⟨1, 0, "c0", none, true, true, 0⟩, ⟨4, 3, "c4", none, false, false, 0⟩],
      [], 5⟩ ⟨5, 2, "x", some 4, false, false, 0⟩).1.based_on =
      originalCurrentRev ⟨[⟨0, "en-US", "s0", "T0", none, true, "h", some 1,
        true, none, none⟩,
      ⟨2, "de", "s0", "T0", some 0, true, "", none, true, none, none⟩,
      ⟨3, "en-US", "other", "Other", none, true, "", none, true, none, none⟩],
      [⟨1, 0, "c0", none, true, true, 0⟩, ⟨4, 3, "c4", none, false, false, 0⟩],
      [], 5⟩ ⟨2, "de", "s0", "T0", some 0, true, "", none, true, none, none⟩ :=
  c6_bad_based_on ⟨[⟨0, "en-US", "s0", "T0", none, true, "h", some 1,
      true, none, none⟩,
    ⟨2, "de", "s0", "T0", some 0, true, "", none, true, none, none⟩,
    ⟨3, "en-US", "other", "Other", none, true, "", none, true, none, none⟩],
    [⟨1, 0, "c0", none, true, true, 0⟩, ⟨4, 3, "c4", none, false, false, 0⟩],
    [], 5⟩ ⟨5, 2, "x", some 4, false, false, 0⟩
    ⟨2, "de", "s0", "T0", some 0, true, "", none, true, none, none⟩ 4
    ⟨4, 3, "c4", none, false, false, 0⟩ (by rfl) (by rfl) (by rfl) (by rfl)

/-- C8: `twitter_post` returns 400 when the message content is empty,
returns 400 when the content exceeds the 140-character ceiling, returns a
400 whose body contains the upstream error message when the external post
fails, and returns 200 with an empty body only when the upstream post
succeeds. -/
theorem c8_twitter_post_gating (rt : Option Int) (rtv : Int)
    (content big body : String) (api : Except String Unit) (e : String)
    (hne : content.length ≠ 0) (hle : content.length ≤ 140)
    (hbig : big.length > 140)
    (hok : twitter_post rt content api = .ok body) :
    (twitter_post rt "" api).isBadRequest = true ∧
    (twitter_post rt big api).isBadRequest = true ∧
    twitter_post (some rtv) content (Except.error e) =
      .bad_request ("An error occured: " ++ e) ∧
    e.data <:+: ("An error occured: " ++ e).data ∧
    (body = "" ∧ api = Except.ok ()) := by
  refine ⟨?_, ?_, ?_, ?_, ?_⟩
  · cases rt <;> simp [twitter_post, HttpResponse.isBadRequest]
  · cases rt <;>
      simp [twitter_post, HttpResponse.isBadRequest, Nat.pos_iff_ne_zero.mp
        (Nat.lt_trans (by norm_num) hbig), if_neg, hbig]
  · simp [twitter_post, hne, Nat.not_lt.mpr hle]
  · exact ⟨"An error occured: ".data, [], by simp [String.data_append]⟩
  · cases rt with
    | none => simp [twitter_post] at hok
    | some r =>
      by_cases h0 : content.length = 0
      · simp [twitter_post, h0] at hok
      · by_cases h1 : content.length > 140
        · simp [twitter_post, h0, h1] at hok
        · cases api with
          | error err => simp [twitter_post, h0, h1] at hok
          | ok u =>
            simp [twitter_post, h0, h1] at hok
            exact ⟨hok.symm, by cases u; rfl⟩

/-- C8 witness: the gating facts evaluated at a concrete request with a
2-character message, a 141-character message, and a succeeding upstream
call. -/
theorem c8_twitter_post_gating_witness :
    (twitter_post (some 1) "" (Except.ok ())).isBadRequest = true ∧
    (twitter_post (some 1) (String.mk (List.replicate 141 'a'))
      (Except.ok ())).isBadRequest = true ∧
    twitter_post (some 7) "hi" (Except.error "boom") =
      .bad_request ("An error occured: " ++ "boom") ∧
    "boom".data <:+: ("An error occured: " ++ "boom").data ∧
    ("" = "" ∧ (Except.ok () : Except String Unit) = Except.ok ()) :=
  c8_twitter_post_gating (some 1) 7 "hi" (String.mk (List.replicate 141 'a'))
    "" (Except.ok ()) "boom" (by decide) (by decide)
    (by simp [String.length, List.length_replicate]) (by decide)

/-- C9: the tweet-feed fetch used by `more_tweets` returns at most
`MAX_TWEETS = 20` tweets per call; with a `max_id` cursor it returns only
tweets whose id is strictly less than the cursor; and every returned item
has its profile image URL, user name and text run through the
sanitizer. -/
theorem c9_get_tweets_pagination (clean : String → String)
    (tweets : List StoredTweet) (mid : Option Int) (m : Int) (v : TweetView)
    (hv : v ∈ more_tweets clean tweets (some m)) :
    (more_tweets clean tweets mid).length ≤ MAX_TWEETS ∧
    v.id < m ∧
    ((more_tweets clean tweets mid).all (fun w => tweets.any (fun t =>
        w.profile_img == clean t.profile_image_url &&
        w.user == clean t.from_user && w.text == clean t.text))) = true := by
  refine ⟨?_, ?_, ?_⟩
  · unfold more_tweets get_tweets MAX_TWEETS
    cases mid <;>
      simp [List.length_map, List.length_take, Nat.min_le_left]
  · unfold more_tweets get_tweets at hv
    simp only [List.mem_map] at hv
    obtain ⟨t, ht, hvt⟩ := hv
    have ht2 := List.mem_of_mem_take (by simpa using ht)
    have hlt := List.of_mem_filter ht2
    have : v.id = t.tweet_id := by rw [← hvt]
    rw [this]
    exact (by simpa using hlt : t.tweet_id < m ∧ t.locale = "en").1
  · rw [List.all_eq_true]
    intro w hw
    unfold more_tweets get_tweets at hw
    simp only [List.mem_map] at hw
    have hw2 : ∃ t, t ∈ tweets ∧
        (w.profile_img = clean t.profile_image_url ∧
         w.user = clean t.from_user ∧ w.text = clean t.text) := by
      cases mid with
      | none =>
        simp only at hw
        obtain ⟨t, ht, hwt⟩ := hw
        refine ⟨t, List.mem_of_mem_filter (List.mem_of_mem_take (by simpa using ht)), ?_⟩
        rw [← hwt]
        exact ⟨rfl, rfl, rfl⟩
      | some mm =>
        simp only at hw
        obtain ⟨t, ht, hwt⟩ := hw
        refine ⟨t, List.mem_of_mem_filter (List.mem_of_mem_filter
          (List.mem_of_mem_take (by simpa using ht))), ?_⟩
        rw [← hwt]
        exact ⟨rfl, rfl, rfl⟩
    obtain ⟨t, ht, h1, h2, h3⟩ := hw2
    rw [List.any_eq_true]
    exact ⟨t, ht, by simp [h1, h2, h3]⟩

/-- C9 witness: the pagination and sanitization facts evaluated on a
concrete two-tweet store with cursor 5. -/
theorem c9_get_tweets_pagination_witness :
    (more_tweets (fun x => x) [⟨"en", 7, "p7", "u7", "t7", "d"⟩,
        ⟨"en", 3, "p3", "u3", "t3", "d"⟩] (some 5)).length ≤ MAX_TWEETS ∧
    (⟨"p3", "u3", "t3", 3, "d"⟩ : TweetView).id < 5 ∧
    ((more_tweets (fun x => x) [⟨"en", 7, "p7", "u7", "t7", "d"⟩,
        ⟨"en", 3, "p3", "u3", "t3", "d"⟩] (some 5)).all (fun w =>
        [(⟨"en", 7, "p7", "u7", "t7", "d"⟩ : StoredTweet),
         ⟨"en", 3, "p3", "u3", "t3", "d"⟩].any (fun t =>
        w.profile_img == (fun x => x) t.profile_image_url &&
        w.user == (fun x => x) t.from_user &&
        w.text == (fun x => x) t.text))) = true :=
  c9_get_tweets_pagination (fun x => x)
    [⟨"en", 7, "p7", "u7", "t7", "d"⟩, ⟨"en", 3, "p3", "u3", "t3", "d"⟩]
    (some 5) 5 ⟨"p3", "u3", "t3", 3, "d"⟩ (by decide)

end Kitsune
